import Mathlib

/-!
# Verification of the `codex-redis` storage engine

A shallow embedding of the core of the `codex-redis` crate (wire-protocol
codec in `resp.rs`, command dispatcher / key space / expiration /
append-only-log persistence in `lib.rs`, and the vector index façade in
`codex-redis-vector/src/index.rs`), together with proofs about the
properties its specification states.

Modelling conventions:
* Rust `Vec<u8>` buffers and `String`s are both modelled as `List Nat`
  (byte lists); Rust strings are UTF-8 byte vectors, and validity is
  tracked explicitly where the code checks it (`String::from_utf8`).
* Machine integers (`i64`, `u64`, `isize`, `usize`, `u32`) are modelled as
  `Int`/`Nat` with explicit range checks and `% 2 ^ 64` (resp. `2 ^ 32`)
  wrapping exactly where the code casts.
* The monotonic clock (`Instant`) is a `Nat` counting milliseconds; every
  command execution receives the single instant `now` at which it runs.
* Recursive functions carry explicit fuel where Rust recursion is not
  structural; fuel is always instantiated large enough, and adequacy is
  part of the proofs.
-/

namespace CodexRedis

/-- Byte strings: Rust `Vec<u8>` / `String` contents. -/
abbrev Bytes := List Nat

/-- `find_crlf` from `resp.rs`: position of the first `\r\n` window
(`buf.windows(2).position(|w| w == b"\r\n")`). -/
def find_crlf : List Nat → Option Nat
  | [] => none
  | [_] => none
  | a :: b :: t =>
    if a = 13 ∧ b = 10 then some 0 else (find_crlf (b :: t)).map (· + 1)

/-- A byte list with no `\r\n` window (`find_crlf` returns `none`). -/
def noCRLF (l : List Nat) : Bool := (find_crlf l).isNone

/-- ASCII decimal digit test (`0`–`9`). -/
def isDigitB (b : Nat) : Bool := 48 ≤ b && b ≤ 57

/-- Accumulating decimal value of a digit run; `none` on any non-digit.
Models the digit loop of Rust's integer `FromStr`. -/
def digitsValAux : List Nat → Nat → Option Nat
  | [], acc => some acc
  | b :: bs, acc => if isDigitB b then digitsValAux bs (acc * 10 + (b - 48)) else none

/-- Decimal value of a nonempty all-digit byte string. -/
def digitsVal (l : List Nat) : Option Nat :=
  if l.isEmpty then none else digitsValAux l 0

/-- Rust `str::parse::<i64>`: optional `+`/`-` sign, then a nonempty
digit run, with the `i64` range check. -/
def parseI64 (l : List Nat) : Option Int :=
  match l with
  | 43 :: rest =>
    match digitsVal rest with
    | some n => if n < 2 ^ 63 then some (n : Int) else none
    | none => none
  | 45 :: rest =>
    match digitsVal rest with
    | some n => if n ≤ 2 ^ 63 then some (-(n : Int)) else none
    | none => none
  | _ =>
    match digitsVal l with
    | some n => if n < 2 ^ 63 then some (n : Int) else none
    | none => none

/-- Rust unsigned `FromStr` (`usize`/`u32` via `parse().unwrap_or(0)`
call sites): optional `+`, nonempty digit run, bound check. -/
def parseUNat (bound : Nat) (l : List Nat) : Option Nat :=
  match l with
  | 43 :: rest =>
    match digitsVal rest with
    | some n => if n < bound then some n else none
    | none => none
  | _ =>
    match digitsVal l with
    | some n => if n < bound then some n else none
    | none => none

/-- `as u64` / `as usize` on an `i64`: two's-complement reinterpretation,
i.e. the value modulo `2 ^ 64` as an unsigned number. -/
def i64AsU64 (n : Int) : Nat := (n % (2 ^ 64 : Int)).toNat

/-- `as i64` on a `u64` (`Duration::as_secs() as i64`): wrap modulo
`2 ^ 64` into the signed range. -/
def u64AsI64 (x : Nat) : Int :=
  let r : Int := (x : Int) % 2 ^ 64
  if r < 2 ^ 63 then r else r - 2 ^ 64

/-- Fuel-driven body of decimal rendering (`n.to_string()` digits),
accumulator style so the recursion is structural. -/
def natToDecAux : Nat → Nat → List Nat → List Nat
  | 0, _, acc => acc
  | fuel + 1, n, acc =>
    if n < 10 then (48 + n) :: acc
    else natToDecAux fuel (n / 10) ((48 + n % 10) :: acc)

/-- ASCII decimal digits of a natural number, most significant first
(Rust `usize::to_string` / the digit part of `i64::to_string`). -/
def natToDecList (n : Nat) : List Nat := natToDecAux (n + 1) n []

/-- Rust `i64::to_string` as bytes: optional `-` then decimal digits. -/
def intToDecBytes (n : Int) : Bytes :=
  if n < 0 then 45 :: natToDecList n.natAbs else natToDecList n.toNat

/-- Continuation byte of a UTF-8 sequence (`0x80`–`0xBF`). -/
def isUtf8Cont (b : Nat) : Bool := 128 ≤ b && b ≤ 191

/-- Validity check of `String::from_utf8` (standard UTF-8 acceptance,
including the surrogate and maximum-scalar restrictions). -/
def isValidUtf8 : List Nat → Bool
  | [] => true
  | b :: rest =>
    if b ≤ 127 then isValidUtf8 rest
    else if 194 ≤ b && b ≤ 223 then
      match rest with
      | c1 :: r => isUtf8Cont c1 && isValidUtf8 r
      | [] => false
    else if b = 224 then
      match rest with
      | c1 :: c2 :: r => (160 ≤ c1 && c1 ≤ 191) && isUtf8Cont c2 && isValidUtf8 r
      | _ => false
    else if 225 ≤ b && b ≤ 236 then
      match rest with
      | c1 :: c2 :: r => isUtf8Cont c1 && isUtf8Cont c2 && isValidUtf8 r
      | _ => false
    else if b = 237 then
      match rest with
      | c1 :: c2 :: r => (128 ≤ c1 && c1 ≤ 159) && isUtf8Cont c2 && isValidUtf8 r
      | _ => false
    else if 238 ≤ b && b ≤ 239 then
      match rest with
      | c1 :: c2 :: r => isUtf8Cont c1 && isUtf8Cont c2 && isValidUtf8 r
      | _ => false
    else if b = 240 then
      match rest with
      | c1 :: c2 :: c3 :: r => (144 ≤ c1 && c1 ≤ 191) && isUtf8Cont c2 && isUtf8Cont c3 && isValidUtf8 r
      | _ => false
    else if 241 ≤ b && b ≤ 243 then
      match rest with
      | c1 :: c2 :: c3 :: r => isUtf8Cont c1 && isUtf8Cont c2 && isUtf8Cont c3 && isValidUtf8 r
      | _ => false
    else if b = 244 then
      match rest with
      | c1 :: c2 :: c3 :: r => (128 ≤ c1 && c1 ≤ 143) && isUtf8Cont c2 && isUtf8Cont c3 && isValidUtf8 r
      | _ => false
    else false

/-- The protocol message type `Resp` from `resp.rs`. -/
inductive Resp where
  | Simple : Bytes → Resp
  | Error : Bytes → Resp
  | Integer : Int → Resp
  | Bulk : Option Bytes → Resp
  | Array : Option (List Resp) → Resp
deriving Repr

mutual

/-- `Resp::encode` from `resp.rs`, byte for byte. -/
def Resp.encode : Resp → List Nat
  | .Simple s => 43 :: (s ++ [13, 10])
  | .Error s => 45 :: (s ++ [13, 10])
  | .Integer i => 58 :: (intToDecBytes i ++ [13, 10])
  | .Bulk (some b) => 36 :: (natToDecList b.length ++ [13, 10] ++ b ++ [13, 10])
  | .Bulk none => [36, 45, 49, 13, 10]
  | .Array (some items) => 42 :: (natToDecList items.length ++ [13, 10] ++ Resp.encodeList items)
  | .Array none => [42, 45, 49, 13, 10]

/-- Concatenation of the encodings of an item list (the `for it in items`
loop of the `Array` arm of `Resp::encode`). -/
def Resp.encodeList : List Resp → List Nat
  | [] => []
  | r :: rs => Resp.encode r ++ Resp.encodeList rs

end

/-- Parse failure kinds: `eof` is `io::ErrorKind::UnexpectedEof` ("not
enough data yet"), `invalid` is `io::ErrorKind::InvalidData` ("malformed
data").  `fuel` marks exhaustion of the artificial recursion fuel and is
never produced at the fuel the top-level `Resp.parse` supplies. -/
inductive PErr where
  | eof
  | invalid
  | fuel
deriving DecidableEq, Repr

/-- Parse `count` back-to-back frames with a given single-frame parser:
the item loop of the `Array` arm of `Resp::parse`. -/
def parseManyGo (p : List Nat → Except PErr (Resp × Nat)) :
    Nat → List Nat → Except PErr (List Resp × Nat)
  | 0, _ => .ok ([], 0)
  | c + 1, input =>
    match p input with
    | .ok (r, used) =>
      match parseManyGo p c (input.drop used) with
      | .ok (rs, used2) => .ok (r :: rs, used + used2)
      | .error e => .error e
    | .error e => .error e

/-- `Resp::parse` from `resp.rs`, with explicit fuel bounding the array
nesting depth (the Rust recursion is on sub-slices). -/
def parseF : Nat → List Nat → Except PErr (Resp × Nat)
  | 0, _ => .error .fuel
  | _ + 1, [] => .error .eof
  | fuel + 1, b :: rest =>
    if b = 43 then
      match find_crlf rest with
      | some pos =>
        let line := rest.take pos
        if isValidUtf8 line then .ok (.Simple line, 1 + pos + 2) else .error .invalid
      | none => .error .eof
    else if b = 45 then
      match find_crlf rest with
      | some pos =>
        let line := rest.take pos
        if isValidUtf8 line then .ok (.Error line, 1 + pos + 2) else .error .invalid
      | none => .error .eof
    else if b = 58 then
      match find_crlf rest with
      | some pos =>
        match parseI64 (rest.take pos) with
        | some num => .ok (.Integer num, 1 + pos + 2)
        | none => .error .invalid
      | none => .error .eof
    else if b = 36 then
      match find_crlf rest with
      | some pos =>
        match parseI64 (rest.take pos) with
        | some len =>
          let header := 1 + pos + 2
          if len = -1 then .ok (.Bulk none, header)
          else
            let lenU := i64AsU64 len
            if (b :: rest).length < header + lenU + 2 then .error .eof
            else
              let data := ((b :: rest).drop header).take lenU
              if ((b :: rest).drop (header + lenU)).take 2 = [13, 10] then
                .ok (.Bulk (some data), header + lenU + 2)
              else .error .invalid
        | none => .error .invalid
      | none => .error .eof
    else if b = 42 then
      match find_crlf rest with
      | some pos =>
        match parseI64 (rest.take pos) with
        | some len =>
          let offset := 1 + pos + 2
          if len = -1 then .ok (.Array none, offset)
          else
            let lenU := i64AsU64 len
            match parseManyGo (parseF fuel) lenU ((b :: rest).drop offset) with
            | .ok (items, used) => .ok (.Array (some items), offset + used)
            | .error e => .error e
        | none => .error .invalid
      | none => .error .eof
    else .error .invalid

/-- `Resp::parse`: the fuel `input.length + 1` strictly dominates the
possible array nesting depth, so the result never mentions `.fuel`. -/
def Resp.parse (input : List Nat) : Except PErr (Resp × Nat) :=
  parseF (input.length + 1) input

/-- `Resp::parse_stream`: repeatedly parse whole frames until the buffer
is empty; any parse failure fails the whole stream.  Fuel bounds the
number of frames (each frame consumes at least one byte). -/
def parseStreamF : Nat → List Nat → Except PErr (List Resp)
  | _, [] => .ok []
  | 0, _ => .error .fuel
  | fuel + 1, input =>
    match Resp.parse input with
    | .ok (r, used) =>
      match parseStreamF fuel (input.drop used) with
      | .ok rs => .ok (r :: rs)
      | .error e => .error e
    | .error e => .error e

/-- `Resp::parse_stream` at adequate fuel. -/
def Resp.parseStream (input : List Nat) : Except PErr (List Resp) :=
  parseStreamF input.length input

/-! ### Decimal rendering and parsing -/

theorem natToDecAux_acc (f n : Nat) (acc : List Nat) (hf : n ≤ f) :
    natToDecAux (f + 1) n acc = natToDecList n ++ acc := by
  induction n using Nat.strong_induction_on generalizing f acc with
  | _ n ih =>
    by_cases h10 : n < 10
    · simp [natToDecAux, natToDecList, h10]
    · have hdiv : n / 10 < n := Nat.div_lt_self (by omega) (by omega)
      obtain ⟨f', rfl⟩ : ∃ f', f = f' + 1 := ⟨f - 1, by omega⟩
      rw [show natToDecAux (f' + 1 + 1) n acc
            = natToDecAux (f' + 1) (n / 10) ((48 + n % 10) :: acc) by
          simp [natToDecAux, h10]]
      rw [ih (n / 10) hdiv f' _ (by omega)]
      conv_rhs => rw [natToDecList]
      obtain ⟨n', hn⟩ : ∃ n', n = n' + 1 := ⟨n - 1, by omega⟩
      conv_rhs =>
        rw [show natToDecAux (n + 1) n []
              = natToDecAux (n' + 1) (n / 10) [48 + n % 10] by
            rw [← hn]
            simp [natToDecAux, h10]]
      rw [ih (n / 10) hdiv n' _ (by omega)]
      simp

theorem natToDecList_lt {n : Nat} (h : n < 10) : natToDecList n = [48 + n] := by
  simp [natToDecList, natToDecAux, h]

theorem natToDecList_ge {n : Nat} (h : 10 ≤ n) :
    natToDecList n = natToDecList (n / 10) ++ [48 + n % 10] := by
  rw [natToDecList]
  rw [show natToDecAux (n + 1) n []
        = natToDecAux n (n / 10) [48 + n % 10] by
      simp [natToDecAux, show ¬ n < 10 by omega]]
  obtain ⟨n', rfl⟩ : ∃ n', n = n' + 1 := ⟨n - 1, by omega⟩
  exact natToDecAux_acc n' ((n' + 1) / 10) _ (by omega)

theorem natToDecList_digits {n : Nat} : ∀ b ∈ natToDecList n, 48 ≤ b ∧ b ≤ 57 := by
  induction n using Nat.strong_induction_on with
  | _ n ih =>
    by_cases h10 : n < 10
    · rw [natToDecList_lt h10]
      intro b hb
      simp only [List.mem_singleton] at hb
      omega
    · rw [natToDecList_ge (by omega)]
      intro b hb
      rcases List.mem_append.mp hb with h | h
      · exact ih (n / 10) (Nat.div_lt_self (by omega) (by omega)) b h
      · simp only [List.mem_singleton] at h
        have := Nat.mod_lt n (show 0 < 10 by omega)
        omega

theorem natToDecList_ne_nil {n : Nat} : natToDecList n ≠ [] := by
  by_cases h10 : n < 10
  · rw [natToDecList_lt h10]; simp
  · rw [natToDecList_ge (by omega)]; simp

theorem digitsValAux_append (l₁ l₂ : List Nat) (acc : Nat) :
    digitsValAux (l₁ ++ l₂) acc =
      match digitsValAux l₁ acc with
      | some a => digitsValAux l₂ a
      | none => none := by
  induction l₁ generalizing acc with
  | nil => simp [digitsValAux]
  | cons b bs ih =>
    simp only [List.cons_append, digitsValAux]
    by_cases hd : isDigitB b
    · simp [hd, ih]
    · simp [hd]

theorem digitsValAux_natToDecList (n acc : Nat) :
    digitsValAux (natToDecList n) acc =
      some (acc * 10 ^ (natToDecList n).length + n) := by
  induction n using Nat.strong_induction_on generalizing acc with
  | _ n ih =>
    by_cases h10 : n < 10
    · rw [natToDecList_lt h10]
      have hd : isDigitB (48 + n) = true := by simp [isDigitB]; omega
      simp [digitsValAux, hd]
    · rw [natToDecList_ge (by omega), digitsValAux_append]
      rw [ih (n / 10) (Nat.div_lt_self (by omega) (by omega)) acc]
      have hm : n % 10 < 10 := Nat.mod_lt n (by omega)
      have hd : isDigitB (48 + n % 10) = true := by simp [isDigitB]; omega
      simp only [digitsValAux, hd, if_true, List.length_append, List.length_singleton]
      congr 1
      have key : ∀ A : Nat, (A + n / 10) * 10 + (48 + n % 10 - 48) = A * 10 + n := by
        intro A
        have := Nat.div_add_mod n 10
        omega
      calc (acc * 10 ^ (natToDecList (n / 10)).length + n / 10) * 10 + (48 + n % 10 - 48)
          = (acc * 10 ^ (natToDecList (n / 10)).length) * 10 + n := key _
        _ = acc * 10 ^ ((natToDecList (n / 10)).length + 1) + n := by
            rw [pow_succ, mul_assoc]

theorem digitsVal_natToDecList (n : Nat) : digitsVal (natToDecList n) = some n := by
  rw [digitsVal, if_neg (by simpa using natToDecList_ne_nil)]
  rw [digitsValAux_natToDecList]
  simp

theorem parseI64_no_sign {l : List Nat} (h43 : l.head? ≠ some 43) (h45 : l.head? ≠ some 45) :
    parseI64 l =
      match digitsVal l with
      | some n => if n < 2 ^ 63 then some (n : Int) else none
      | none => none := by
  cases l with
  | nil => rfl
  | cons b t =>
    rw [parseI64.eq_def]
    split
    · rename_i heq
      rw [List.cons.injEq] at heq
      exact absurd (by simp [heq.1] : (b :: t).head? = some 43) h43
    · rename_i heq
      rw [List.cons.injEq] at heq
      exact absurd (by simp [heq.1] : (b :: t).head? = some 45) h45
    · rfl

theorem parseI64_natToDecList {n : Nat} (h : n < 2 ^ 63) :
    parseI64 (natToDecList n) = some (n : Int) := by
  rcases hl : natToDecList n with _ | ⟨b, t⟩
  · exact absurd hl natToDecList_ne_nil
  · have hb : 48 ≤ b ∧ b ≤ 57 := natToDecList_digits b (by rw [hl]; simp)
    have hval : digitsVal (b :: t) = some n := by rw [← hl]; exact digitsVal_natToDecList n
    rw [parseI64_no_sign (by simp; omega) (by simp; omega), hval]
    show (if n < 2 ^ 63 then some ((n : Nat) : Int) else none) = some ((n : Nat) : Int)
    rw [if_pos h]

theorem parseI64_intToDecBytes {n : Int} (h1 : -(2 ^ 63) ≤ n) (h2 : n < 2 ^ 63) :
    parseI64 (intToDecBytes n) = some n := by
  by_cases hneg : n < 0
  · rw [intToDecBytes, if_pos hneg]
    rcases hl : natToDecList n.natAbs with _ | ⟨b, t⟩
    · exact absurd hl natToDecList_ne_nil
    · have hval : digitsVal (b :: t) = some n.natAbs := by
        rw [← hl]; exact digitsVal_natToDecList n.natAbs
      rw [show parseI64 (45 :: b :: t)
            = match digitsVal (b :: t) with
              | some m => if m ≤ 2 ^ 63 then some (-(m : Int)) else none
              | none => none from rfl, hval]
      show (if n.natAbs ≤ 2 ^ 63 then some (-(n.natAbs : Int)) else none) = some n
      rw [if_pos (by omega)]
      congr 1
      omega
  · rw [intToDecBytes, if_neg hneg]
    rw [parseI64_natToDecList (show n.toNat < 2 ^ 63 by omega)]
    congr 1
    omega

theorem intToDecBytes_mem {n : Int} {b : Nat} (h : b ∈ intToDecBytes n) :
    (48 ≤ b ∧ b ≤ 57) ∨ b = 45 := by
  rw [intToDecBytes] at h
  split at h
  · rcases List.mem_cons.mp h with h | h
    · exact Or.inr h
    · exact Or.inl (natToDecList_digits b h)
  · exact Or.inl (natToDecList_digits b h)

/-! ### `find_crlf` facts -/

theorem find_crlf_cons_cons (a b : Nat) (t : List Nat) :
    find_crlf (a :: b :: t) =
      if a = 13 ∧ b = 10 then some 0 else (find_crlf (b :: t)).map (· + 1) := rfl

theorem noCRLF_cons_cons {a b : Nat} {t : List Nat} (h : noCRLF (a :: b :: t) = true) :
    ¬(a = 13 ∧ b = 10) ∧ noCRLF (b :: t) = true := by
  rw [noCRLF, find_crlf_cons_cons] at h
  by_cases hc : a = 13 ∧ b = 10
  · simp [hc] at h
  · refine ⟨hc, ?_⟩
    simp [hc, Option.isNone_map'] at h
    simpa [noCRLF] using h

theorem find_crlf_append_crlf {l : List Nat} (r : List Nat) (h : noCRLF l = true) :
    find_crlf (l ++ 13 :: 10 :: r) = some l.length := by
  induction l with
  | nil => simp [find_crlf]
  | cons a t ih =>
    cases t with
    | nil =>
      simp [find_crlf_cons_cons, show ¬(a = 13 ∧ (13 : Nat) = 10) by omega, find_crlf]
    | cons b t' =>
      obtain ⟨hc, h'⟩ := noCRLF_cons_cons h
      rw [show (a :: b :: t') ++ 13 :: 10 :: r = a :: ((b :: t') ++ 13 :: 10 :: r) from rfl]
      rw [show a :: ((b :: t') ++ 13 :: 10 :: r) = a :: b :: (t' ++ 13 :: 10 :: r) from rfl]
      rw [find_crlf_cons_cons, if_neg hc]
      rw [show b :: (t' ++ 13 :: 10 :: r) = (b :: t') ++ 13 :: 10 :: r from rfl]
      rw [ih h']
      simp

theorem find_crlf_take_none {l : List Nat} (h : find_crlf l = none) (j : Nat) :
    find_crlf (l.take j) = none := by
  induction l generalizing j with
  | nil => simp [find_crlf]
  | cons a t ih =>
    cases j with
    | zero => simp [find_crlf]
    | succ j' =>
      cases t with
      | nil => simp [find_crlf, List.take_nil]
      | cons b t' =>
        rw [find_crlf_cons_cons] at h
        by_cases hc : a = 13 ∧ b = 10
        · simp [hc] at h
        · rw [if_neg hc] at h
          simp only [Option.map_eq_none'] at h
          cases j' with
          | zero => simp [find_crlf]
          | succ j'' =>
            rw [show (a :: b :: t').take (j'' + 1 + 1) = a :: b :: t'.take j'' from rfl]
            rw [find_crlf_cons_cons, if_neg hc]
            rw [show b :: t'.take j'' = (b :: t').take (j'' + 1) from rfl]
            rw [ih h (j'' + 1)]
            rfl

theorem find_crlf_append_13 {l : List Nat} (h : find_crlf l = none) :
    find_crlf (l ++ [13]) = none := by
  induction l with
  | nil => simp [find_crlf]
  | cons a t ih =>
    cases t with
    | nil => simp [find_crlf, show ¬((a : Nat) = 13 ∧ (13 : Nat) = 10) by omega]
    | cons b t' =>
      rw [find_crlf_cons_cons] at h
      by_cases hc : a = 13 ∧ b = 10
      · simp [hc] at h
      · rw [if_neg hc] at h
        simp only [Option.map_eq_none'] at h
        rw [show (a :: b :: t') ++ [13] = a :: b :: (t' ++ [13]) from rfl]
        rw [find_crlf_cons_cons, if_neg hc]
        rw [show b :: (t' ++ [13]) = (b :: t') ++ [13] from rfl]
        rw [ih h]
        rfl

theorem noCRLF_of_ne13 {l : List Nat} (h : ∀ b ∈ l, b ≠ 13) : noCRLF l = true := by
  induction l with
  | nil => rfl
  | cons a t ih =>
    cases t with
    | nil => rfl
    | cons b t' =>
      rw [noCRLF, find_crlf_cons_cons, if_neg (by have := h a (by simp); tauto)]
      rw [Option.isNone_map']
      exact ih (fun x hx => h x (by simp [hx]))

/-! ### Constructible and well-formed messages -/

mutual

/-- A message constructible in the Rust program: `Simple`/`Error` carry a
`String` (valid UTF-8), `Integer` an `i64`, and bulk payloads / item
counts fit `usize` bounds that the `isize` length parse accepts. -/
def Resp.constructible : Resp → Bool
  | .Simple s => isValidUtf8 s
  | .Error s => isValidUtf8 s
  | .Integer n => decide (-(2 ^ 63 : Int) ≤ n) && decide (n < 2 ^ 63)
  | .Bulk (some b) => decide (b.length < 2 ^ 63)
  | .Bulk none => true
  | .Array (some items) => decide (items.length < 2 ^ 63) && Resp.constructibleList items
  | .Array none => true

/-- `Resp.constructible` on every element of an item list. -/
def Resp.constructibleList : List Resp → Bool
  | [] => true
  | r :: rs => Resp.constructible r && Resp.constructibleList rs

end

mutual

/-- A constructible message whose `Simple`/`Error` payloads additionally
contain no `\r\n` window (the class of frames the codec round-trips). -/
def Resp.wf : Resp → Bool
  | .Simple s => noCRLF s && isValidUtf8 s
  | .Error s => noCRLF s && isValidUtf8 s
  | .Integer n => decide (-(2 ^ 63 : Int) ≤ n) && decide (n < 2 ^ 63)
  | .Bulk (some b) => decide (b.length < 2 ^ 63)
  | .Bulk none => true
  | .Array (some items) => decide (items.length < 2 ^ 63) && Resp.wfList items
  | .Array none => true

/-- `Resp.wf` on every element of an item list. -/
def Resp.wfList : List Resp → Bool
  | [] => true
  | r :: rs => Resp.wf r && Resp.wfList rs

end

theorem wfList_mem {is : List Resp} (h : Resp.wfList is = true) :
    ∀ i ∈ is, Resp.wf i = true := by
  induction is with
  | nil => intro i hi; cases hi
  | cons r rs ih =>
    rw [Resp.wfList, Bool.and_eq_true] at h
    intro i hi
    rcases List.mem_cons.mp hi with rfl | hi
    · exact h.1
    · exact ih h.2 i hi

/-! ### Encoding lengths -/

theorem natToDecList_length_pos (n : Nat) : 1 ≤ (natToDecList n).length := by
  rcases hl : natToDecList n with _ | ⟨b, t⟩
  · exact absurd hl natToDecList_ne_nil
  · simp

theorem encode_length_pos (m : Resp) : 3 ≤ (Resp.encode m).length := by
  cases m with
  | Simple s => simp [Resp.encode]
  | Error s => simp [Resp.encode]
  | Integer n =>
    have h : 1 ≤ (intToDecBytes n).length := by
      rw [intToDecBytes]
      split
      · simp
      · exact natToDecList_length_pos _
    simp [Resp.encode]
  | Bulk ob =>
    cases ob with
    | some b =>
      have := natToDecList_length_pos b.length
      simp [Resp.encode]
      omega
    | none => simp [Resp.encode]
  | Array oi =>
    cases oi with
    | some items =>
      have := natToDecList_length_pos items.length
      simp [Resp.encode]
      omega
    | none => simp [Resp.encode]

theorem encode_mem_le {i : Resp} {is : List Resp} (h : i ∈ is) :
    (Resp.encode i).length ≤ (Resp.encodeList is).length := by
  induction is with
  | nil => cases h
  | cons r rs ih =>
    rw [Resp.encodeList, List.length_append]
    rcases List.mem_cons.mp h with rfl | h
    · omega
    · have := ih h
      omega

theorem encode_lt_encode_array {i : Resp} {is : List Resp} (h : i ∈ is) :
    (Resp.encode i).length + 4 ≤ (Resp.encode (.Array (some is))).length := by
  have h1 := encode_mem_le h
  have h2 := natToDecList_length_pos is.length
  simp [Resp.encode]
  omega

theorem i64AsU64_coe {k : Nat} (h : k < 2 ^ 64) : i64AsU64 (k : Int) = k := by
  rw [i64AsU64, Int.emod_eq_of_lt (by positivity) (by exact_mod_cast h)]
  simp

/-! ### The round-trip law -/

theorem parseManyGo_encodeList (p : List Nat → Except PErr (Resp × Nat)) (is : List Resp)
    (H : ∀ i ∈ is, ∀ r : List Nat, p (Resp.encode i ++ r) = .ok (i, (Resp.encode i).length)) :
    ∀ rest : List Nat, parseManyGo p is.length (Resp.encodeList is ++ rest) =
      .ok (is, (Resp.encodeList is).length) := by
  induction is with
  | nil =>
    intro rest
    simp [parseManyGo, Resp.encodeList]
  | cons i is ih =>
    intro rest
    have hdrop : (Resp.encode i ++ (Resp.encodeList is ++ rest)).drop (Resp.encode i).length
        = Resp.encodeList is ++ rest := List.drop_left _ _
    have hH : ∀ j ∈ is, ∀ r : List Nat, p (Resp.encode j ++ r) = .ok (j, (Resp.encode j).length) :=
      fun j hj r => H j (by simp [hj]) r
    rw [show Resp.encodeList (i :: is) = Resp.encode i ++ Resp.encodeList is from rfl,
        List.append_assoc, show (i :: is).length = is.length + 1 from rfl]
    simp only [parseManyGo, H i (by simp), hdrop, ih hH]
    simp [List.length_append]

theorem parseF_encode_strong :
    ∀ (N : Nat) (m : Resp), (Resp.encode m).length ≤ N → Resp.wf m = true →
      ∀ (rest : List Nat) (fuel : Nat), (Resp.encode m).length ≤ fuel →
        parseF fuel (Resp.encode m ++ rest) = .ok (m, (Resp.encode m).length) := by
  intro N
  induction N with
  | zero =>
    intro m hN
    have := encode_length_pos m
    omega
  | succ N ih =>
    intro m hN hwf rest fuel hfuel
    have hpos := encode_length_pos m
    obtain ⟨f, rfl⟩ : ∃ f, fuel = f + 1 := ⟨fuel - 1, by omega⟩
    have c43 : ((43 : Nat) = 43) = True := by simp
    have c45a : ((45 : Nat) = 43) = False := by simp
    have c45b : ((45 : Nat) = 45) = True := by simp
    have c58a : ((58 : Nat) = 43) = False := by simp
    have c58b : ((58 : Nat) = 45) = False := by simp
    have c58c : ((58 : Nat) = 58) = True := by simp
    have c36a : ((36 : Nat) = 43) = False := by simp
    have c36b : ((36 : Nat) = 45) = False := by simp
    have c36c : ((36 : Nat) = 58) = False := by simp
    have c36d : ((36 : Nat) = 36) = True := by simp
    have c42a : ((42 : Nat) = 43) = False := by simp
    have c42b : ((42 : Nat) = 45) = False := by simp
    have c42c : ((42 : Nat) = 58) = False := by simp
    have c42d : ((42 : Nat) = 36) = False := by simp
    have c42e : ((42 : Nat) = 42) = True := by simp
    cases m with
    | Simple s =>
      have hw : noCRLF s = true ∧ isValidUtf8 s = true := by
        simpa [Resp.wf, Bool.and_eq_true] using hwf
      rw [show Resp.encode (.Simple s) ++ rest = 43 :: (s ++ 13 :: 10 :: rest) by
        simp [Resp.encode]]
      simp only [parseF, c43, if_true]
      rw [find_crlf_append_crlf rest hw.1]
      simp only [List.take_left, hw.2, if_true]
      simp [Resp.encode]
      omega
    | Error s =>
      have hw : noCRLF s = true ∧ isValidUtf8 s = true := by
        simpa [Resp.wf, Bool.and_eq_true] using hwf
      rw [show Resp.encode (.Error s) ++ rest = 45 :: (s ++ 13 :: 10 :: rest) by
        simp [Resp.encode]]
      simp only [parseF, c45a, c45b, if_true, if_false]
      rw [find_crlf_append_crlf rest hw.1]
      simp only [List.take_left, hw.2, if_true]
      simp [Resp.encode]
      omega
    | Integer n =>
      have hw : -(2 ^ 63 : Int) ≤ n ∧ n < 2 ^ 63 := by
        simpa [Resp.wf] using hwf
      have hne13 : ∀ x ∈ intToDecBytes n, x ≠ 13 := by
        intro x hx
        rcases intToDecBytes_mem hx with h | h <;> omega
      rw [show Resp.encode (.Integer n) ++ rest = 58 :: (intToDecBytes n ++ 13 :: 10 :: rest) by
        simp [Resp.encode]]
      simp only [parseF, c58a, c58b, c58c, if_true, if_false]
      rw [find_crlf_append_crlf rest (noCRLF_of_ne13 hne13)]
      simp only [List.take_left]
      rw [parseI64_intToDecBytes hw.1 hw.2]
      simp [Resp.encode]
      omega
    | Bulk ob =>
      cases ob with
      | none =>
        rw [show Resp.encode (.Bulk none) ++ rest = 36 :: 45 :: 49 :: 13 :: 10 :: rest from rfl]
        simp only [parseF, c36a, c36b, c36c, c36d, if_true, if_false]
        rw [show find_crlf (45 :: 49 :: 13 :: 10 :: rest) = some 2 by
          simp [find_crlf_cons_cons, find_crlf]]
        simp only [List.take]
        rw [show parseI64 [45, 49] = some (-1) from rfl]
        simp [Resp.encode]
      | some b =>
        have hlen : b.length < 2 ^ 63 := by simpa [Resp.wf] using hwf
        have hne13 : ∀ x ∈ natToDecList b.length, x ≠ 13 := by
          intro x hx
          have := natToDecList_digits x hx
          omega
        rw [show Resp.encode (.Bulk (some b)) ++ rest
            = 36 :: (natToDecList b.length ++ 13 :: 10 :: (b ++ 13 :: 10 :: rest)) by
          simp [Resp.encode]]
        simp only [parseF, c36a, c36b, c36c, c36d, if_true, if_false]
        rw [find_crlf_append_crlf _ (noCRLF_of_ne13 hne13)]
        simp only [List.take_left]
        rw [parseI64_natToDecList hlen]
        have hne1 : ((b.length : Int) = -1) = False := by simp
        have hu : i64AsU64 ((b.length : Nat) : Int) = b.length := i64AsU64_coe (by omega)
        have hdrop1 : (36 :: (natToDecList b.length ++ 13 :: 10 :: (b ++ 13 :: 10 :: rest))).drop
            (1 + (natToDecList b.length).length + 2) = b ++ 13 :: 10 :: rest := by
          rw [show 36 :: (natToDecList b.length ++ 13 :: 10 :: (b ++ 13 :: 10 :: rest))
              = (36 :: natToDecList b.length ++ [13, 10]) ++ (b ++ 13 :: 10 :: rest) by simp]
          exact List.drop_left' (by simp; omega)
        have hdrop2 : (36 :: (natToDecList b.length ++ 13 :: 10 :: (b ++ 13 :: 10 :: rest))).drop
            (1 + (natToDecList b.length).length + 2 + b.length) = 13 :: 10 :: rest := by
          rw [show 36 :: (natToDecList b.length ++ 13 :: 10 :: (b ++ 13 :: 10 :: rest))
              = ((36 :: natToDecList b.length ++ [13, 10]) ++ b) ++ (13 :: 10 :: rest) by simp]
          exact List.drop_left' (by simp; omega)
        have hnotlt : ((36 :: (natToDecList b.length ++ 13 :: 10 :: (b ++ 13 :: 10 :: rest))).length
            < 1 + (natToDecList b.length).length + 2 + b.length + 2) = False := by
          simp
          omega
        simp only [hne1, if_false, hu, hnotlt, hdrop1, hdrop2, List.take_left]
        simp [Resp.encode]
        omega
    | Array oi =>
      cases oi with
      | none =>
        rw [show Resp.encode (.Array none) ++ rest = 42 :: 45 :: 49 :: 13 :: 10 :: rest from rfl]
        simp only [parseF, c42a, c42b, c42c, c42d, c42e, if_true, if_false]
        rw [show find_crlf (45 :: 49 :: 13 :: 10 :: rest) = some 2 by
          simp [find_crlf_cons_cons, find_crlf]]
        simp only [List.take]
        rw [show parseI64 [45, 49] = some (-1) from rfl]
        simp [Resp.encode]
      | some items =>
        have hw : items.length < 2 ^ 63 ∧ Resp.wfList items = true := by
          simpa [Resp.wf] using hwf
        have hne13 : ∀ x ∈ natToDecList items.length, x ≠ 13 := by
          intro x hx
          have := natToDecList_digits x hx
          omega
        rw [show Resp.encode (.Array (some items)) ++ rest
            = 42 :: (natToDecList items.length ++ 13 :: 10 :: (Resp.encodeList items ++ rest)) by
          simp [Resp.encode]]
        simp only [parseF, c42a, c42b, c42c, c42d, c42e, if_true, if_false]
        rw [find_crlf_append_crlf _ (noCRLF_of_ne13 hne13)]
        simp only [List.take_left]
        rw [parseI64_natToDecList hw.1]
        have hne1 : ((items.length : Int) = -1) = False := by simp
        have hu : i64AsU64 ((items.length : Nat) : Int) = items.length := i64AsU64_coe (by omega)
        have hdrop1 : (42 :: (natToDecList items.length ++ 13 :: 10 ::
              (Resp.encodeList items ++ rest))).drop
            (1 + (natToDecList items.length).length + 2) = Resp.encodeList items ++ rest := by
          rw [show 42 :: (natToDecList items.length ++ 13 :: 10 :: (Resp.encodeList items ++ rest))
              = (42 :: natToDecList items.length ++ [13, 10]) ++ (Resp.encodeList items ++ rest) by
            simp]
          exact List.drop_left' (by simp; omega)
        have hitems : ∀ i ∈ items, ∀ r : List Nat,
            parseF f (Resp.encode i ++ r) = .ok (i, (Resp.encode i).length) := by
          intro i hi r
          have hlt := encode_lt_encode_array hi
          exact ih i (by omega) (wfList_mem hw.2 i hi) r f (by omega)
        simp only [hne1, if_false, hu, hdrop1]
        rw [parseManyGo_encodeList (parseF f) items hitems rest]
        simp [Resp.encode]
        omega

/-- The round-trip law at the top-level parser: for every well-formed
message, `parse (encode m)` succeeds and consumes exactly the encoding. -/
theorem Resp.parse_encode {m : Resp} (h : Resp.wf m = true) :
    Resp.parse (Resp.encode m) = .ok (m, (Resp.encode m).length) := by
  rw [Resp.parse]
  have := parseF_encode_strong (Resp.encode m).length m le_rfl h []
    ((Resp.encode m).length + 1) (by omega)
  simpa using this

/-! ### Proper prefixes of valid frames parse as "not enough data" -/

theorem find_crlf_eq_none_of_noCRLF {l : List Nat} (h : noCRLF l = true) :
    find_crlf l = none := by
  rwa [noCRLF, Option.isNone_iff_eq_none] at h

theorem find_crlf_take_header {A C : List Nat} (hA : noCRLF A = true) {j : Nat}
    (hj : j ≤ A.length + 1) : find_crlf ((A ++ 13 :: 10 :: C).take j) = none := by
  rcases Nat.lt_or_ge j (A.length + 1) with h | h
  · rw [List.take_append_eq_append_take, show j - A.length = 0 by omega]
    simp only [List.take_zero, List.append_nil]
    exact find_crlf_take_none (find_crlf_eq_none_of_noCRLF hA) j
  · have hj' : j = A.length + 1 := by omega
    rw [hj', List.take_append_eq_append_take, List.take_of_length_le (by omega),
        show A.length + 1 - A.length = 1 by omega]
    rw [show (13 :: 10 :: C).take 1 = [13] from rfl]
    exact find_crlf_append_13 (find_crlf_eq_none_of_noCRLF hA)

theorem take_header_split {A C : List Nat} {j : Nat} (hj : A.length + 2 ≤ j) :
    (A ++ 13 :: 10 :: C).take j = A ++ 13 :: 10 :: C.take (j - A.length - 2) := by
  rw [List.take_append_eq_append_take, List.take_of_length_le (by omega)]
  congr 1
  obtain ⟨k, hk⟩ : ∃ k, j - A.length = k + 2 := ⟨j - A.length - 2, by omega⟩
  rw [hk, List.take_succ_cons, List.take_succ_cons]
  congr 2

theorem prefix_length_lt {p l : List Nat} (hpre : p <+: l) (hne : p ≠ l) :
    p.length < l.length := by
  rcases Nat.lt_or_ge p.length l.length with h | h
  · exact h
  · exact absurd (hpre.sublist.eq_of_length_le h) hne

theorem parseManyGo_front (f : Nat) (is : List Resp)
    (Hok : ∀ i ∈ is, ∀ r : List Nat, (Resp.encode i).length ≤ f →
        parseF f (Resp.encode i ++ r) = .ok (i, (Resp.encode i).length))
    (Heof : ∀ i ∈ is, ∀ q : List Nat, q <+: Resp.encode i → q ≠ Resp.encode i →
        q.length + 1 ≤ f → parseF f q = .error .eof) :
    ∀ q : List Nat, q <+: Resp.encodeList is → q ≠ Resp.encodeList is →
      q.length + 4 ≤ f → parseManyGo (parseF f) is.length q = .error .eof := by
  induction is with
  | nil =>
    intro q hpre hne
    rw [show Resp.encodeList [] = [] from rfl] at hpre hne
    exact absurd (List.prefix_nil.mp hpre) hne
  | cons i is ih =>
    intro q hpre hne hf
    rw [show Resp.encodeList (i :: is) = Resp.encode i ++ Resp.encodeList is from rfl]
      at hpre hne
    obtain ⟨f', rfl⟩ : ∃ f', f = f' + 1 := ⟨f - 1, by omega⟩
    rcases List.prefix_or_prefix_of_prefix hpre
      (List.prefix_append (Resp.encode i) (Resp.encodeList is)) with hq | hq
    · by_cases heq : q = Resp.encode i
      · subst heq
        have hne2 : Resp.encodeList is ≠ [] := fun h0 => hne (by rw [h0, List.append_nil])
        have hok := Hok i (by simp) [] (by omega)
        rw [List.append_nil] at hok
        rcases is with _ | ⟨i', is'⟩
        · exact absurd rfl hne2
        · rw [show (i :: i' :: is').length = (i' :: is').length + 1 from rfl]
          simp only [parseManyGo, hok, List.drop_length,
            show (i' :: is').length = is'.length + 1 from rfl,
            show parseF (f' + 1) [] = .error .eof from rfl]
      · rw [show (i :: is).length = is.length + 1 from rfl]
        simp only [parseManyGo, Heof i (by simp) q hq heq (by omega)]
    · obtain ⟨q', rfl⟩ := hq
      have hpre' : q' <+: Resp.encodeList is := by
        obtain ⟨t, ht⟩ := hpre
        rw [List.append_assoc] at ht
        exact ⟨t, List.append_cancel_left ht⟩
      have hne'' : q' ≠ Resp.encodeList is := fun h0 => hne (by rw [h0])
      have hlapp := List.length_append (Resp.encode i) q'
      have hle : (Resp.encode i).length ≤ f' + 1 := by omega
      have hip := encode_length_pos i
      rw [show (i :: is).length = is.length + 1 from rfl]
      simp only [parseManyGo, Hok i (by simp) q' hle, List.drop_left,
        ih (fun j hj => Hok j (by simp [hj])) (fun j hj => Heof j (by simp [hj]))
          q' hpre' hne'' (by omega)]

theorem parseF_prefix_eof_strong :
    ∀ (N : Nat) (m : Resp), (Resp.encode m).length ≤ N → Resp.wf m = true →
      ∀ (p : List Nat), p <+: Resp.encode m → p ≠ Resp.encode m →
        ∀ (f : Nat), p.length + 1 ≤ f → parseF f p = .error .eof := by
  intro N
  induction N with
  | zero =>
    intro m hN
    have := encode_length_pos m
    omega
  | succ N ih =>
    intro m hN hwf p hpre hne f hf
    obtain ⟨f', rfl⟩ : ∃ f', f = f' + 1 := ⟨f - 1, by omega⟩
    have c43 : ((43 : Nat) = 43) = True := by simp
    have c45a : ((45 : Nat) = 43) = False := by simp
    have c45b : ((45 : Nat) = 45) = True := by simp
    have c58a : ((58 : Nat) = 43) = False := by simp
    have c58b : ((58 : Nat) = 45) = False := by simp
    have c58c : ((58 : Nat) = 58) = True := by simp
    have c36a : ((36 : Nat) = 43) = False := by simp
    have c36b : ((36 : Nat) = 45) = False := by simp
    have c36c : ((36 : Nat) = 58) = False := by simp
    have c36d : ((36 : Nat) = 36) = True := by simp
    have c42a : ((42 : Nat) = 43) = False := by simp
    have c42b : ((42 : Nat) = 45) = False := by simp
    have c42c : ((42 : Nat) = 58) = False := by simp
    have c42d : ((42 : Nat) = 36) = False := by simp
    have c42e : ((42 : Nat) = 42) = True := by simp
    cases m with
    | Simple s =>
      have hw : noCRLF s = true ∧ isValidUtf8 s = true := by
        simpa [Resp.wf, Bool.and_eq_true] using hwf
      rw [show Resp.encode (.Simple s) = 43 :: (s ++ 13 :: 10 :: ([] : List Nat)) by
        simp [Resp.encode]] at hpre hne
      cases p with
      | nil => rfl
      | cons x p' =>
        rw [List.cons_prefix_cons] at hpre
        obtain ⟨rfl, hpre⟩ := hpre
        have hne' : p' ≠ s ++ 13 :: 10 :: ([] : List Nat) := fun h => hne (by rw [h])
        have hnone : find_crlf p' = none := by
          rw [List.prefix_iff_eq_take.mp hpre]
          refine find_crlf_take_header hw.1 ?_
          have := prefix_length_lt hpre hne'
          simp only [List.length_append, List.length_cons, List.length_nil] at this
          omega
        simp only [parseF, c43, if_true, hnone]
    | Error s =>
      have hw : noCRLF s = true ∧ isValidUtf8 s = true := by
        simpa [Resp.wf, Bool.and_eq_true] using hwf
      rw [show Resp.encode (.Error s) = 45 :: (s ++ 13 :: 10 :: ([] : List Nat)) by
        simp [Resp.encode]] at hpre hne
      cases p with
      | nil => rfl
      | cons x p' =>
        rw [List.cons_prefix_cons] at hpre
        obtain ⟨rfl, hpre⟩ := hpre
        have hne' : p' ≠ s ++ 13 :: 10 :: ([] : List Nat) := fun h => hne (by rw [h])
        have hnone : find_crlf p' = none := by
          rw [List.prefix_iff_eq_take.mp hpre]
          refine find_crlf_take_header hw.1 ?_
          have := prefix_length_lt hpre hne'
          simp only [List.length_append, List.length_cons, List.length_nil] at this
          omega
        simp only [parseF, c45a, c45b, if_true, if_false, hnone]
    | Integer n =>
      have hA : noCRLF (intToDecBytes n) = true := by
        refine noCRLF_of_ne13 ?_
        intro x hx
        rcases intToDecBytes_mem hx with h | h <;> omega
      rw [show Resp.encode (.Integer n)
          = 58 :: (intToDecBytes n ++ 13 :: 10 :: ([] : List Nat)) by
        simp [Resp.encode]] at hpre hne
      cases p with
      | nil => rfl
      | cons x p' =>
        rw [List.cons_prefix_cons] at hpre
        obtain ⟨rfl, hpre⟩ := hpre
        have hne' : p' ≠ intToDecBytes n ++ 13 :: 10 :: ([] : List Nat) := fun h => hne (by rw [h])
        have hnone : find_crlf p' = none := by
          rw [List.prefix_iff_eq_take.mp hpre]
          refine find_crlf_take_header hA ?_
          have := prefix_length_lt hpre hne'
          simp only [List.length_append, List.length_cons, List.length_nil] at this
          omega
        simp only [parseF, c58a, c58b, c58c, if_true, if_false, hnone]
    | Bulk ob =>
      cases ob with
      | none =>
        have hlen := prefix_length_lt hpre hne
        obtain ⟨j, hj, rfl⟩ : ∃ j, j < 5 ∧ p = (Resp.encode (.Bulk none)).take j :=
          ⟨p.length, by simpa [Resp.encode] using hlen, List.prefix_iff_eq_take.mp hpre⟩
        interval_cases j <;> simp [Resp.encode, parseF, find_crlf]
      | some b =>
        have hblen : b.length < 2 ^ 63 := by simpa [Resp.wf] using hwf
        have hA : noCRLF (natToDecList b.length) = true := by
          refine noCRLF_of_ne13 ?_
          intro x hx
          have := natToDecList_digits x hx
          omega
        rw [show Resp.encode (.Bulk (some b))
            = 36 :: (natToDecList b.length ++ 13 :: 10 :: (b ++ 13 :: 10 :: ([] : List Nat))) by
          simp [Resp.encode]] at hpre hne
        cases p with
        | nil => rfl
        | cons x p' =>
          rw [List.cons_prefix_cons] at hpre
          obtain ⟨rfl, hpre⟩ := hpre
          have hne' : p' ≠ natToDecList b.length ++ 13 :: 10 :: (b ++ 13 :: 10 :: ([] : List Nat)) :=
            fun h => hne (by rw [h])
          have hplen := prefix_length_lt hpre hne'
          simp only [List.length_append, List.length_cons, List.length_nil] at hplen
          by_cases hsplit : p'.length ≤ (natToDecList b.length).length + 1
          · have hnone : find_crlf p' = none := by
              rw [List.prefix_iff_eq_take.mp hpre]
              exact find_crlf_take_header hA hsplit
            simp only [parseF, c36a, c36b, c36c, c36d, if_true, if_false, hnone]
          · have htake := List.prefix_iff_eq_take.mp hpre
            rw [take_header_split (by omega)] at htake
            obtain ⟨k, hkdef⟩ :
                ∃ k, k = p'.length - (natToDecList b.length).length - 2 := ⟨_, rfl⟩
            rw [← hkdef] at htake
            have hkC : k < b.length + 2 := by omega
            rw [htake]
            simp only [parseF, c36a, c36b, c36c, c36d, if_true, if_false]
            rw [find_crlf_append_crlf _ hA]
            simp only [List.take_left]
            rw [parseI64_natToDecList hblen]
            have hne1 : ((b.length : Int) = -1) = False := by simp
            have hu : i64AsU64 ((b.length : Nat) : Int) = b.length := i64AsU64_coe (by omega)
            have hlt : ((36 :: (natToDecList b.length ++ 13 :: 10 ::
                  (b ++ 13 :: 10 :: ([] : List Nat)).take k)).length
                < 1 + (natToDecList b.length).length + 2 + b.length + 2) = True := by
              simp only [List.length_cons, List.length_append, List.length_take,
                eq_iff_iff, iff_true]
              have : ((b ++ 13 :: 10 :: ([] : List Nat)).length) = b.length + 2 := by simp
              omega
            simp only [hne1, if_false, hu, hlt, if_true]
    | Array oi =>
      cases oi with
      | none =>
        have hlen := prefix_length_lt hpre hne
        obtain ⟨j, hj, rfl⟩ : ∃ j, j < 5 ∧ p = (Resp.encode (.Array none)).take j :=
          ⟨p.length, by simpa [Resp.encode] using hlen, List.prefix_iff_eq_take.mp hpre⟩
        interval_cases j <;> simp [Resp.encode, parseF, find_crlf]
      | some items =>
        have hw : items.length < 2 ^ 63 ∧ Resp.wfList items = true := by
          simpa [Resp.wf] using hwf
        have hA : noCRLF (natToDecList items.length) = true := by
          refine noCRLF_of_ne13 ?_
          intro x hx
          have := natToDecList_digits x hx
          omega
        rw [show Resp.encode (.Array (some items))
            = 42 :: (natToDecList items.length ++ 13 :: 10 :: Resp.encodeList items) by
          simp [Resp.encode]] at hpre hne
        cases p with
        | nil => rfl
        | cons x p' =>
          rw [List.cons_prefix_cons] at hpre
          obtain ⟨rfl, hpre⟩ := hpre
          have hne' : p' ≠ natToDecList items.length ++ 13 :: 10 :: Resp.encodeList items :=
            fun h => hne (by rw [h])
          have hplen := prefix_length_lt hpre hne'
          simp only [List.length_append, List.length_cons] at hplen
          by_cases hsplit : p'.length ≤ (natToDecList items.length).length + 1
          · have hnone : find_crlf p' = none := by
              rw [List.prefix_iff_eq_take.mp hpre]
              exact find_crlf_take_header hA hsplit
            simp only [parseF, c42a, c42b, c42c, c42d, c42e, if_true, if_false, hnone]
          · have htake := List.prefix_iff_eq_take.mp hpre
            rw [take_header_split (by omega)] at htake
            obtain ⟨k, hkdef⟩ :
                ∃ k, k = p'.length - (natToDecList items.length).length - 2 := ⟨_, rfl⟩
            rw [← hkdef] at htake
            have hkE : k < (Resp.encodeList items).length := by omega
            rw [htake]
            simp only [parseF, c42a, c42b, c42c, c42d, c42e, if_true, if_false]
            rw [find_crlf_append_crlf _ hA]
            simp only [List.take_left]
            rw [parseI64_natToDecList hw.1]
            have hne1 : ((items.length : Int) = -1) = False := by simp
            have hu : i64AsU64 ((items.length : Nat) : Int) = items.length :=
              i64AsU64_coe (by omega)
            have hdropQ : (42 :: (natToDecList items.length ++ 13 :: 10 ::
                  (Resp.encodeList items).take k)).drop
                (1 + (natToDecList items.length).length + 2)
                = (Resp.encodeList items).take k := by
              rw [show 42 :: (natToDecList items.length ++ 13 :: 10 ::
                    (Resp.encodeList items).take k)
                  = (42 :: natToDecList items.length ++ [13, 10])
                    ++ (Resp.encodeList items).take k by simp]
              exact List.drop_left' (by simp; omega)
            have hQne : (Resp.encodeList items).take k ≠ Resp.encodeList items := by
              intro h0
              have := congrArg List.length h0
              simp only [List.length_take] at this
              omega
            have hHok : ∀ i ∈ items, ∀ r : List Nat, (Resp.encode i).length ≤ f' →
                parseF f' (Resp.encode i ++ r) = .ok (i, (Resp.encode i).length) := by
              intro i hi r hle
              exact parseF_encode_strong (Resp.encode i).length i le_rfl
                (wfList_mem hw.2 i hi) r f' hle
            have hHeof : ∀ i ∈ items, ∀ q : List Nat, q <+: Resp.encode i →
                q ≠ Resp.encode i → q.length + 1 ≤ f' → parseF f' q = .error .eof := by
              intro i hi q hq1 hq2 hq3
              have hlt := encode_lt_encode_array hi
              refine ih i ?_ (wfList_mem hw.2 i hi) q hq1 hq2 f' hq3
              have : (Resp.encode (.Array (some items))).length ≤ N + 1 := hN
              simp only [Resp.encode, List.length_cons, List.length_append,
                List.length_cons, List.length_nil] at this hlt ⊢
              omega
            simp only [hne1, if_false, hu, hdropQ]
            rw [parseManyGo_front f' items hHok hHeof ((Resp.encodeList items).take k)
              (List.take_prefix k _) hQne
              (by
                have h1 := natToDecList_length_pos items.length
                simp only [List.length_take, List.length_cons] at hf ⊢
                omega)]

/-- The top-level parser returns the "not enough data yet" outcome on
every proper prefix of a well-formed frame's encoding. -/
theorem Resp.parse_prefix_eof {m : Resp} (h : Resp.wf m = true) {p : List Nat}
    (hpre : p <+: Resp.encode m) (hne : p ≠ Resp.encode m) :
    Resp.parse p = .error .eof :=
  parseF_prefix_eof_strong (Resp.encode m).length m le_rfl h p hpre hne _ le_rfl

theorem intToDecBytes_ne_nil {n : Int} : intToDecBytes n ≠ [] := by
  rw [intToDecBytes]
  split
  · simp
  · exact natToDecList_ne_nil

/-! ### Claim C1: the round-trip law -/

/-- C1 (counterexample): `Resp::Simple("a\r\nb")` is constructible, but
parsing its encoding returns `Simple("a")` with only 4 of the 7 encoded
bytes consumed, so `parse(encode(m)) == (m, len(encode(m)))` fails. -/
theorem c1_counterexample :
    Resp.constructible (.Simple [97, 13, 10, 98]) = true
    ∧ Resp.parse (Resp.encode (.Simple [97, 13, 10, 98])) = .ok (.Simple [97], 4)
    ∧ Resp.parse (Resp.encode (.Simple [97, 13, 10, 98]))
        ≠ .ok (.Simple [97, 13, 10, 98], (Resp.encode (.Simple [97, 13, 10, 98])).length) := by
  refine ⟨rfl, rfl, ?_⟩
  intro h
  rw [show Resp.parse (Resp.encode (.Simple [97, 13, 10, 98]))
      = .ok (.Simple [97], 4) from rfl] at h
  rw [show (Resp.encode (.Simple [97, 13, 10, 98])).length = 7 from rfl] at h
  injection h with h
  injection h with h1 h2
  exact absurd h2 (by omega)

/-- C1 (amended): for every constructible message whose `Simple`/`Error`
payloads contain no `\r\n`, `Resp::parse` applied to `Resp::encode(m)`
succeeds and returns exactly `(m, len(encode(m)))`. -/
theorem c1_roundtrip (m : Resp) (h : Resp.wf m = true) :
    Resp.parse (Resp.encode m) = .ok (m, (Resp.encode m).length) :=
  Resp.parse_encode h

/-- Witness for `c1_roundtrip` at the repository's own test message
`Array [Simple "OK", Bulk "hello", Integer 42]`. -/
theorem c1_roundtrip_witness :
    Resp.wf (.Array (some [.Simple [79, 75],
        .Bulk (some [104, 101, 108, 108, 111]), .Integer 42])) = true
    ∧ Resp.parse (Resp.encode (.Array (some [.Simple [79, 75],
        .Bulk (some [104, 101, 108, 108, 111]), .Integer 42])))
      = .ok (.Array (some [.Simple [79, 75],
            .Bulk (some [104, 101, 108, 108, 111]), .Integer 42]),
          (Resp.encode (.Array (some [.Simple [79, 75],
            .Bulk (some [104, 101, 108, 108, 111]), .Integer 42]))).length) :=
  ⟨rfl, c1_roundtrip _ rfl⟩

/-! ### Claim C2: the failure taxonomy of `Resp::parse` -/

/-- The buffer is a strict (incomplete) prefix of the encoding of some
constructible frame. -/
def IncompletePrefixOfValid (buf : List Nat) : Prop :=
  ∃ m : Resp, Resp.constructible m = true ∧ buf <+: Resp.encode m ∧ buf ≠ Resp.encode m

/-- C2 (counterexample): on the buffer `":a"` the parser reports the
"not enough data yet" outcome even though no constructible frame has
`":a"` as an incomplete prefix (an integer line can never start with
`a`), so "eof exactly when the buffer is an incomplete prefix of a
valid frame" fails, as does "malformed data whenever the buffer cannot
begin a valid frame". -/
theorem c2_counterexample :
    Resp.parse [58, 97] = .error .eof ∧ ¬ IncompletePrefixOfValid [58, 97] := by
  refine ⟨rfl, ?_⟩
  rintro ⟨m, hc, hpre, hne⟩
  cases m with
  | Simple s =>
    rw [show Resp.encode (.Simple s) = 43 :: (s ++ [13, 10]) from rfl,
      show ([58, 97] : List Nat) = 58 :: [97] from rfl, List.cons_prefix_cons] at hpre
    exact absurd hpre.1 (by omega)
  | Error s =>
    rw [show Resp.encode (.Error s) = 45 :: (s ++ [13, 10]) from rfl,
      show ([58, 97] : List Nat) = 58 :: [97] from rfl, List.cons_prefix_cons] at hpre
    exact absurd hpre.1 (by omega)
  | Integer n =>
    rw [show Resp.encode (.Integer n) = 58 :: (intToDecBytes n ++ [13, 10]) from rfl,
      show ([58, 97] : List Nat) = 58 :: [97] from rfl, List.cons_prefix_cons] at hpre
    obtain ⟨-, hpre⟩ := hpre
    rcases hl : intToDecBytes n with _ | ⟨d, t⟩
    · exact absurd hl intToDecBytes_ne_nil
    · rw [hl, show (d :: t) ++ [13, 10] = d :: (t ++ [13, 10]) from rfl,
        List.cons_prefix_cons] at hpre
      have hd : (48 ≤ d ∧ d ≤ 57) ∨ d = 45 := intToDecBytes_mem (by rw [hl]; simp)
      obtain ⟨hd97, -⟩ := hpre
      omega
  | Bulk ob =>
    cases ob with
    | some b =>
      rw [show Resp.encode (.Bulk (some b))
          = 36 :: (natToDecList b.length ++ [13, 10] ++ b ++ [13, 10]) from rfl,
        show ([58, 97] : List Nat) = 58 :: [97] from rfl, List.cons_prefix_cons] at hpre
      exact absurd hpre.1 (by omega)
    | none =>
      rw [show Resp.encode (.Bulk none) = 36 :: [45, 49, 13, 10] from rfl,
        show ([58, 97] : List Nat) = 58 :: [97] from rfl, List.cons_prefix_cons] at hpre
      exact absurd hpre.1 (by omega)
  | Array oi =>
    cases oi with
    | some items =>
      rw [show Resp.encode (.Array (some items))
          = 42 :: (natToDecList items.length ++ [13, 10] ++ Resp.encodeList items) from rfl,
        show ([58, 97] : List Nat) = 58 :: [97] from rfl, List.cons_prefix_cons] at hpre
      exact absurd hpre.1 (by omega)
    | none =>
      rw [show Resp.encode (.Array none) = 42 :: [45, 49, 13, 10] from rfl,
        show ([58, 97] : List Nat) = 58 :: [97] from rfl, List.cons_prefix_cons] at hpre
      exact absurd hpre.1 (by omega)

/-- C2 (amended): `Resp::parse` distinguishes the recoverable
`UnexpectedEof` ("not enough data yet") outcome from `InvalidData`
("malformed data"); every strict prefix of a well-formed frame's
encoding yields `UnexpectedEof`, and `InvalidData` is returned only on
buffers that can never begin a well-formed frame (they are neither a
prefix of such an encoding nor an extension of one); both failures
return no consumed-byte count, so the caller's buffer is left intact. -/
theorem c2_parse_failures :
    (∀ (m : Resp) (p : List Nat), Resp.wf m = true → p <+: Resp.encode m →
        p ≠ Resp.encode m → Resp.parse p = .error .eof)
    ∧ (∀ (buf : List Nat) (m : Resp), Resp.parse buf = .error .invalid →
        Resp.wf m = true → ¬ buf <+: Resp.encode m ∧ ¬ Resp.encode m <+: buf) := by
  constructor
  · intro m p h hpre hne
    exact Resp.parse_prefix_eof h hpre hne
  · intro buf m hinv hwf
    constructor
    · intro hpre
      by_cases heq : buf = Resp.encode m
      · rw [heq, Resp.parse_encode hwf] at hinv
        simp at hinv
      · rw [Resp.parse_prefix_eof hwf hpre heq] at hinv
        simp at hinv
    · rintro ⟨r, rfl⟩
      rw [Resp.parse] at hinv
      rw [parseF_encode_strong (Resp.encode m).length m le_rfl hwf r _
        (by simp [List.length_append]; omega)] at hinv
      simp at hinv

/-- Witness for `c2_parse_failures`: the truncated frame `"+O"` yields
`UnexpectedEof`, and the `InvalidData` buffer `"c"` is not a prefix of
the null-bulk frame. -/
theorem c2_parse_failures_witness :
    Resp.parse [43, 79] = .error .eof ∧ ¬ ([99] <+: Resp.encode (.Bulk none)) :=
  ⟨c2_parse_failures.1 (.Simple [79]) [43, 79] rfl ⟨[13, 10], rfl⟩
    (by rw [show Resp.encode (.Simple [79]) = [43, 79, 13, 10] from rfl]; simp),
   (c2_parse_failures.2 [99] (.Bulk none) rfl rfl).1⟩

/-! ### The data store (`lib.rs`)

The key space, TTL table, pub/sub registry, vector registry and
append-only-file handle of the `Redis` struct.  All Rust `HashMap`s /
`HashSet`s are modelled as association lists / lists whose key sets the
operations keep duplicate-free; lookup-level semantics coincide.  The
`aof` field conflates the `аof` handle and `aof_path`: it holds the open
append handle together with the file's current contents, and after
construction the path is present exactly when the handle is.  A file
`write_all` + `flush` pair is modelled as appending to those contents. -/

/-- Byte string of an ASCII Lean string literal (used only to write the
protocol's ASCII keywords and messages compactly). -/
def bs (s : String) : Bytes := s.data.map Char.toNat

/-- `str::to_uppercase` on the ASCII range (command names are ASCII; the
Unicode special cases of `to_uppercase` are not modelled). -/
def asciiUpper (l : Bytes) : Bytes :=
  l.map (fun b => if 97 ≤ b ∧ b ≤ 122 then b - 32 else b)

/-- Association-list lookup (`HashMap::get`). -/
def lookupA {α β : Type} [DecidableEq α] : List (α × β) → α → Option β
  | [], _ => none
  | (k, v) :: rest, key => if k = key then some v else lookupA rest key

/-- Association-list insert-or-replace (`HashMap::insert`). -/
def insertA {α β : Type} [DecidableEq α] : List (α × β) → α → β → List (α × β)
  | [], k, v => [(k, v)]
  | (k', v') :: rest, k, v =>
    if k' = k then (k, v) :: rest else (k', v') :: insertA rest k v

/-- Association-list removal (`HashMap::remove`; keys are unique). -/
def removeA {α β : Type} [DecidableEq α] : List (α × β) → α → List (α × β)
  | [], _ => []
  | (k', v') :: rest, k => if k' = k then rest else (k', v') :: removeA rest k

/-- The `Value` enum of `lib.rs`: string, hash or set. -/
inductive Value where
  | str : Bytes → Value
  | hash : List (Bytes × Bytes) → Value
  | set : List Bytes → Value
deriving Repr

/-- Acceptance of Rust `f32::from_str` (the `parse::<f32>().ok()` filter
of `VEC.ADD`/`VEC.SEARCH`): optional sign, then `inf`/`infinity`/`nan`
case-insensitively, or a decimal mantissa with optional exponent.  Only
acceptance is modelled; an accepted vector component is kept as its raw
token (no claim depends on floating-point values). -/
def asciiLower (l : Bytes) : Bytes :=
  l.map (fun b => if 65 ≤ b ∧ b ≤ 90 then b + 32 else b)

/-- Split at the first occurrence of byte `c`, if any. -/
def splitOnFirst (c : Nat) : Bytes → Option (Bytes × Bytes)
  | [] => none
  | b :: rest =>
    if b = c then some ([], rest)
    else
      match splitOnFirst c rest with
      | some (l, r) => some (b :: l, r)
      | none => none

/-- All bytes are ASCII digits. -/
def isDigitList (l : Bytes) : Bool := l.all isDigitB

/-- Mantissa of the float grammar: `digits ['.' digits?]` or `'.' digits`. -/
def mantissaOk (l : Bytes) : Bool :=
  match splitOnFirst 46 l with
  | none => !l.isEmpty && isDigitList l
  | some (ip, fp) =>
    (isDigitList ip && isDigitList fp) && (!ip.isEmpty || !fp.isEmpty)

/-- Exponent part of the float grammar: optional sign then digits. -/
def expOk (l : Bytes) : Bool :=
  match l with
  | 43 :: rest => !rest.isEmpty && isDigitList rest
  | 45 :: rest => !rest.isEmpty && isDigitList rest
  | _ => !l.isEmpty && isDigitList l

/-- Whether `f32::from_str` accepts the token. -/
def f32Accepts (tok : Bytes) : Bool :=
  let t := asciiLower tok
  let body :=
    match t with
    | 43 :: rest => rest
    | 45 :: rest => rest
    | _ => t
  if body = bs "inf" || body = bs "infinity" || body = bs "nan" then true
  else
    match splitOnFirst 101 body with
    | none => mantissaOk body
    | some (mant, ex) => mantissaOk mant && expOk ex

/-- Comma-splitting of `str::split(',')`. -/
def splitCommaAux : Bytes → Bytes → List Bytes
  | [], acc => [acc]
  | 44 :: rest, acc => acc :: splitCommaAux rest []
  | b :: rest, acc => splitCommaAux rest (acc ++ [b])

/-- `s.split(',').filter_map(|x| x.parse::<f32>().ok()).collect()`,
keeping each accepted component as its raw token. -/
def parseVecF32 (s : Bytes) : List Bytes := (splitCommaAux s []).filter f32Accepts

/-- The HNSW index façade of `codex-redis-vector/src/index.rs`.
`vectors` is the auxiliary `HashMap<u32, Vec<f32>>` (components kept as
raw tokens); `world` models the `small_world_rs::World` graph by its
insertion sequence — the claims only concern whether and with what the
graph was mutated, never the neighbour geometry. -/
structure Index where
  dim : Nat
  m : Nat
  ef_construction : Nat
  vectors : List (Nat × List Bytes)
  world : List (Nat × List Bytes)
deriving Repr

/-- `Index::new` (the error path of `World::new` is not modelled; the
deterministic seed only affects geometry, which is abstracted). -/
def Index.new (dim m ef_construction : Nat) : Index :=
  ⟨dim, m, ef_construction, [], []⟩

/-- `Index::add`: reject on dimension mismatch before touching anything;
a duplicate id updates the retained vector but is not re-inserted into
the graph. -/
def Index.add (idx : Index) (id : Nat) (vec : List Bytes) : Except Bytes Index :=
  if vec.length ≠ idx.dim then .error (bs "dimension mismatch")
  else
    let world' := if (lookupA idx.vectors id).isSome then idx.world else idx.world ++ [(id, vec)]
    .ok { idx with world := world', vectors := insertA idx.vectors id vec }

/-- `Index::search`: dimension check, then the graph query (neighbour
ordering abstracted as the insertion order, truncated to `k`; no claim
depends on the ordering). -/
def Index.search (idx : Index) (query : List Bytes) (k ef_search : Nat) :
    Except Bytes (List Nat) :=
  if query.length ≠ idx.dim then .error (bs "dimension mismatch")
  else .ok ((idx.world.map Prod.fst).take k)

/-- The `Redis` store state (`Inner` of `lib.rs`). -/
structure Redis where
  store : List (Bytes × Value)
  expires : List (Bytes × Nat)
  pubsub : List (Bytes × Nat)
  vectors : List (Bytes × Index)
  aof : Option Bytes
deriving Repr

/-- The empty store. -/
def Redis.empty : Redis := ⟨[], [], [], [], none⟩

/-- `Redis::cleanup_key`: lazy expiration — if the key's deadline has
passed (`Instant::now() >= t`), drop it from the TTL table and the key
space. -/
def Redis.cleanup_key (s : Redis) (now : Nat) (k : Bytes) : Redis :=
  match lookupA s.expires k with
  | some t =>
    if t ≤ now then { s with expires := removeA s.expires k, store := removeA s.store k }
    else s
  | none => s

/-- The Array-of-Bulk frame `Redis::log` builds from a command's argv. -/
def cmdFrame (parts : List Bytes) : Resp :=
  .Array (some (parts.map (fun c => .Bulk (some c))))

/-- The bytes `Redis::log` appends for one command. -/
def logBytes (cmd : List Bytes) : Bytes := (cmdFrame cmd).encode

/-- `Redis::log`: when the append handle is open, encode the argv as an
Array-of-Bulk frame, append it and flush. -/
def Redis.log (s : Redis) (cmd : List Bytes) : Redis :=
  match s.aof with
  | some contents => { s with aof := some (contents ++ logBytes cmd) }
  | none => s

/-- `Redis::publish`: send on the existing fan-out sender if present
(`broadcast::Sender::send` errors when there is no receiver, which
`unwrap_or(0)` turns into 0) or return 0.  The registry is NOT touched.
The per-channel entry tracks its live receiver count. -/
def Redis.publish (s : Redis) (ch : Bytes) (msg : Bytes) : Nat :=
  match lookupA s.pubsub ch with
  | some n => if n = 0 then 0 else n
  | none => 0

/-- `Redis::subscribe`: attach a new receiver to the existing sender, or
lazily create the channel (capacity and message delivery are not
modelled; the count is what `publish` reports). -/
def Redis.subscribe (s : Redis) (ch : Bytes) : Redis :=
  match lookupA s.pubsub ch with
  | some n => { s with pubsub := insertA s.pubsub ch (n + 1) }
  | none => { s with pubsub := insertA s.pubsub ch 1 }

/-- The key `doc:<id>` under which `VEC.ADD` stores its payload. -/
def docKey (id : Nat) : Bytes := bs "doc:" ++ natToDecList id

/-- The `DEL` loop: per key, lazy-expire, then remove from the key space
and TTL table, counting removals. -/
def Redis.delLoop (now : Nat) : Redis → List Bytes → Nat × Redis
  | s, [] => (0, s)
  | s, k :: ks =>
    let s1 := s.cleanup_key now k
    if (lookupA s1.store k).isSome then
      let s2 := { s1 with store := removeA s1.store k, expires := removeA s1.expires k }
      let r := Redis.delLoop now s2 ks
      (r.1 + 1, r.2)
    else Redis.delLoop now s1 ks

/-- The `EXISTS` loop: per key, lazy-expire, then count presence. -/
def Redis.existsLoop (now : Nat) : Redis → List Bytes → Nat × Redis
  | s, [] => (0, s)
  | s, k :: ks =>
    let s1 := s.cleanup_key now k
    if (lookupA s1.store k).isSome then
      let r := Redis.existsLoop now s1 ks
      (r.1 + 1, r.2)
    else Redis.existsLoop now s1 ks

/-- The `SADD` member loop (`HashSet::insert`, counting new members). -/
def saddLoop : List Bytes → List Bytes → Nat × List Bytes
  | ss, [] => (0, ss)
  | ss, x :: xs =>
    if x ∈ ss then saddLoop ss xs
    else
      let r := saddLoop (ss ++ [x]) xs
      (r.1 + 1, r.2)

/-- The `SREM` member loop (`HashSet::remove`, counting removals). -/
def sremLoop : List Bytes → List Bytes → Nat × List Bytes
  | ss, [] => (0, ss)
  | ss, x :: xs =>
    if x ∈ ss then
      let r := sremLoop (ss.erase x) xs
      (r.1 + 1, r.2)
    else sremLoop ss xs

/-- `SET k v`: upsert the string, clear any TTL, log, reply OK. -/
def Redis.cmd_set (s : Redis) (cmd args : List Bytes) (log : Bool) : Resp × Redis :=
  match args with
  | key :: val :: _ =>
    let s1 := { s with store := insertA s.store key (.str val),
                       expires := removeA s.expires key }
    (.Simple (bs "OK"), if log then s1.log cmd else s1)
  | _ => (.Error (bs "ERR wrong number of arguments"), s)

/-- `GET k`: lazy-expire, then read the string value. -/
def Redis.cmd_get (now : Nat) (s : Redis) (args : List Bytes) : Resp × Redis :=
  match args with
  | key :: _ =>
    let s1 := s.cleanup_key now key
    match lookupA s1.store key with
    | some (.str v) => (.Bulk (some v), s1)
    | _ => (.Bulk none, s1)
  | _ => (.Error (bs "ERR wrong number of arguments"), s)

/-- `DEL k...`: remove the keys, log unconditionally, reply the count.
Note the source has no arity check: zero keys reply `Integer 0`. -/
def Redis.cmd_del (now : Nat) (s : Redis) (cmd args : List Bytes) (log : Bool) : Resp × Redis :=
  let r := Redis.delLoop now s args
  (.Integer r.1, if log then r.2.log cmd else r.2)

/-- `EXISTS k...`: count present keys (no arity check, never logs). -/
def Redis.cmd_exists (now : Nat) (s : Redis) (args : List Bytes) : Resp × Redis :=
  let r := Redis.existsLoop now s args
  (.Integer r.1, r.2)

/-- `HSET k f v`: upsert the hash field; a non-hash value at `k` is
replaced by a fresh hash first. -/
def Redis.cmd_hset (now : Nat) (s : Redis) (cmd args : List Bytes) (log : Bool) : Resp × Redis :=
  match args with
  | key :: field :: value :: _ =>
    let s1 := s.cleanup_key now key
    let r : Bool × List (Bytes × Value) :=
      match lookupA s1.store key with
      | some (.hash h) =>
        ((lookupA h field).isNone, insertA s1.store key (.hash (insertA h field value)))
      | some _ => (true, insertA s1.store key (.hash [(field, value)]))
      | none => (true, insertA s1.store key (.hash [(field, value)]))
    let s2 := { s1 with store := r.2 }
    (.Integer (if r.1 then 1 else 0), if log then s2.log cmd else s2)
  | _ => (.Error (bs "ERR wrong number of arguments"), s)

/-- `HGET k f`: null bulk when the key is absent, holds no hash, or the
field is missing. -/
def Redis.cmd_hget (now : Nat) (s : Redis) (args : List Bytes) : Resp × Redis :=
  match args with
  | key :: field :: _ =>
    let s1 := s.cleanup_key now key
    match lookupA s1.store key with
    | some (.hash h) =>
      match lookupA h field with
      | some v => (.Bulk (some v), s1)
      | none => (.Bulk none, s1)
    | _ => (.Bulk none, s1)
  | _ => (.Error (bs "ERR wrong number of arguments"), s)

/-- `HDEL k f`: remove the field when the key holds a hash; logs
unconditionally once past the arity check. -/
def Redis.cmd_hdel (now : Nat) (s : Redis) (cmd args : List Bytes) (log : Bool) : Resp × Redis :=
  match args with
  | key :: field :: _ =>
    let s1 := s.cleanup_key now key
    let r : Int × List (Bytes × Value) :=
      match lookupA s1.store key with
      | some (.hash h) =>
        if (lookupA h field).isSome then
          ((1 : Int), insertA s1.store key (.hash (removeA h field)))
        else ((0 : Int), s1.store)
      | _ => ((0 : Int), s1.store)
    let s2 := { s1 with store := r.2 }
    (.Integer r.1, if log then s2.log cmd else s2)
  | _ => (.Error (bs "ERR wrong number of arguments"), s)

/-- `HGETALL k`: the field/value pairs flattened, or an empty array. -/
def Redis.cmd_hgetall (now : Nat) (s : Redis) (args : List Bytes) : Resp × Redis :=
  match args with
  | key :: _ =>
    let s1 := s.cleanup_key now key
    match lookupA s1.store key with
    | some (.hash h) =>
      (.Array (some (h.foldr (fun p acc => .Bulk (some p.1) :: .Bulk (some p.2) :: acc) [])), s1)
    | _ => (.Array (some []), s1)
  | _ => (.Error (bs "ERR wrong number of arguments"), s)

/-- `SADD k m...`: add members to the set; an existing non-set value is
left untouched and 0 added; logs unconditionally once past arity. -/
def Redis.cmd_sadd (now : Nat) (s : Redis) (cmd args : List Bytes) (log : Bool) : Resp × Redis :=
  match args with
  | key :: m1 :: ms =>
    let s1 := s.cleanup_key now key
    let r : Nat × List (Bytes × Value) :=
      match lookupA s1.store key with
      | some (.set ss) =>
        let q := saddLoop ss (m1 :: ms)
        (q.1, insertA s1.store key (.set q.2))
      | some _ => (0, s1.store)
      | none =>
        let q := saddLoop [] (m1 :: ms)
        (q.1, insertA s1.store key (.set q.2))
    let s2 := { s1 with store := r.2 }
    (.Integer r.1, if log then s2.log cmd else s2)
  | _ => (.Error (bs "ERR wrong number of arguments"), s)

/-- `SREM k m...`: remove members when the key holds a set. -/
def Redis.cmd_srem (now : Nat) (s : Redis) (cmd args : List Bytes) (log : Bool) : Resp × Redis :=
  match args with
  | key :: m1 :: ms =>
    let s1 := s.cleanup_key now key
    let r : Nat × List (Bytes × Value) :=
      match lookupA s1.store key with
      | some (.set ss) =>
        let q := sremLoop ss (m1 :: ms)
        (q.1, insertA s1.store key (.set q.2))
      | _ => (0, s1.store)
    let s2 := { s1 with store := r.2 }
    (.Integer r.1, if log then s2.log cmd else s2)
  | _ => (.Error (bs "ERR wrong number of arguments"), s)

/-- `SMEMBERS k`: the members as bulk strings, or an empty array. -/
def Redis.cmd_smembers (now : Nat) (s : Redis) (args : List Bytes) : Resp × Redis :=
  match args with
  | key :: _ =>
    let s1 := s.cleanup_key now key
    match lookupA s1.store key with
    | some (.set ss) => (.Array (some (ss.map (fun x => .Bulk (some x)))), s1)
    | _ => (.Array (some []), s1)
  | _ => (.Error (bs "ERR wrong number of arguments"), s)

/-- `EXPIRE k sec`: `parse::<i64>().unwrap_or(0)`, reinterpret the
seconds `as u64`, set `deadline = now + Duration::from_secs(...)` (in
milliseconds of the model clock) if the key exists.  The stored
`now + 1000 * sec` is the value of the checked `Instant` addition on its
success region (`instantPlusSecs_some`); where that addition fails —
every reinterpreted negative duration — the program panics instead of
reaching this state, see `instantPlusSecs` and `c9_expire_duration`. -/
def Redis.cmd_expire (now : Nat) (s : Redis) (cmd args : List Bytes) (log : Bool) :
    Resp × Redis :=
  match args with
  | key :: secS :: _ =>
    let sec : Int := (parseI64 secS).getD 0
    let s1 := s.cleanup_key now key
    if (lookupA s1.store key).isSome then
      let s2 := { s1 with expires := insertA s1.expires key (now + 1000 * i64AsU64 sec) }
      (.Integer 1, if log then s2.log cmd else s2)
    else (.Integer 0, s1)
  | _ => (.Error (bs "ERR wrong number of arguments"), s)

/-- `PEXPIRE k ms`: as `EXPIRE` with milliseconds. -/
def Redis.cmd_pexpire (now : Nat) (s : Redis) (cmd args : List Bytes) (log : Bool) :
    Resp × Redis :=
  match args with
  | key :: msS :: _ =>
    let ms : Int := (parseI64 msS).getD 0
    let s1 := s.cleanup_key now key
    if (lookupA s1.store key).isSome then
      let s2 := { s1 with expires := insertA s1.expires key (now + i64AsU64 ms) }
      (.Integer 1, if log then s2.log cmd else s2)
    else (.Integer 0, s1)
  | _ => (.Error (bs "ERR wrong number of arguments"), s)

/-- `TTL k`: −2 when absent (after lazy expiry), −1 when no deadline,
else `(t − now).as_secs() as i64` (truncating division by 1000, then
the u64→i64 cast). -/
def Redis.cmd_ttl (now : Nat) (s : Redis) (args : List Bytes) : Resp × Redis :=
  match args with
  | key :: _ =>
    let s1 := s.cleanup_key now key
    if (lookupA s1.store key).isNone then (.Integer (-2), s1)
    else
      match lookupA s1.expires key with
      | some t => (.Integer (u64AsI64 ((t - now) / 1000)), s1)
      | none => (.Integer (-1), s1)
  | _ => (.Error (bs "ERR wrong number of arguments"), s)

/-- `PERSIST k`: clear the deadline; log only when one was removed. -/
def Redis.cmd_persist (now : Nat) (s : Redis) (cmd args : List Bytes) (log : Bool) :
    Resp × Redis :=
  match args with
  | key :: _ =>
    let s1 := s.cleanup_key now key
    let removed := (lookupA s1.expires key).isSome
    let s2 := { s1 with expires := removeA s1.expires key }
    (.Integer (if removed then 1 else 0), if removed && log then s2.log cmd else s2)
  | _ => (.Error (bs "ERR wrong number of arguments"), s)

/-- `PUBLISH ch msg`: fan out and reply the receiver count. -/
def Redis.cmd_publish (s : Redis) (args : List Bytes) : Resp × Redis :=
  match args with
  | ch :: msg :: _ => (.Integer (s.publish ch msg), s)
  | _ => (.Error (bs "ERR wrong number of arguments"), s)

/-- `VEC.CREATE name dim m efc`: create a named index; during replay
(`log = false`) an already-loaded index is left untouched. -/
def Redis.cmd_vec_create (s : Redis) (cmd args : List Bytes) (log : Bool) : Resp × Redis :=
  match args with
  | key :: dimS :: mS :: efcS :: _ =>
    let dim := (parseUNat (2 ^ 64) dimS).getD 0
    let m := (parseUNat (2 ^ 64) mS).getD 0
    let efc := (parseUNat (2 ^ 64) efcS).getD 0
    if !log && (lookupA s.vectors key).isSome then (.Simple (bs "OK"), s)
    else
      let s1 := { s with vectors := insertA s.vectors key (Index.new dim m efc) }
      (.Simple (bs "OK"), if log then s1.log cmd else s1)
  | _ => (.Error (bs "ERR wrong number of arguments"), s)

/-- `VEC.ADD name id vec payload`: insert into the named index and store
the payload under `doc:<id>`; on `Index::add` failure reply an Error and
touch nothing. -/
def Redis.cmd_vec_add (s : Redis) (cmd args : List Bytes) (log : Bool) : Resp × Redis :=
  match args with
  | key :: idS :: vecS :: payload :: _ =>
    let id := (parseUNat (2 ^ 32) idS).getD 0
    let vec := parseVecF32 vecS
    match lookupA s.vectors key with
    | some index =>
      match index.add id vec with
      | .ok idx' =>
        let s1 := { s with vectors := insertA s.vectors key idx',
                           store := insertA s.store (docKey id) (.str payload) }
        (.Simple (bs "OK"), if log then s1.log cmd else s1)
      | .error e => (.Error (bs "ERR " ++ e), s)
    | none => (.Error (bs "ERR no such index"), s)
  | _ => (.Error (bs "ERR wrong number of arguments"), s)

/-- `VEC.SEARCH name query k ef`: nearest-neighbour query joined with the
stored `doc:<id>` payloads. -/
def Redis.cmd_vec_search (s : Redis) (args : List Bytes) : Resp × Redis :=
  match args with
  | key :: queryS :: kS :: efS :: _ =>
    let query := parseVecF32 queryS
    let k := (parseUNat (2 ^ 64) kS).getD 0
    let ef := (parseUNat (2 ^ 64) efS).getD k
    match lookupA s.vectors key with
    | some index =>
      match index.search query k ef with
      | .ok ids =>
        (.Array (some (ids.map (fun id =>
          .Array (some [.Integer (Int.ofNat id),
            .Bulk (match lookupA s.store (docKey id) with
                   | some (.str p) => some p
                   | _ => none)])))), s)
      | .error e => (.Error (bs "ERR " ++ e), s)
    | none => (.Error (bs "ERR no such index"), s)
  | _ => (.Error (bs "ERR wrong number of arguments"), s)

/-- One `SET` frame per live string value (the first section `Redis::compact`
writes; hash/set values are skipped by the source). -/
def setFrames : List (Bytes × Value) → Bytes
  | [] => []
  | (k, .str v) :: rest => logBytes [bs "SET", k, v] ++ setFrames rest
  | _ :: rest => setFrames rest

/-- `vec.iter().map(to_string).join(",")`; `f32` `Display` is modelled as
the identity on the stored raw token. -/
def joinComma : List Bytes → Bytes
  | [] => []
  | [x] => x
  | x :: y :: rest => x ++ 44 :: joinComma (y :: rest)

/-- The `VEC.ADD` frames of one index during compaction, with each
payload looked up from `doc:<id>` (`unwrap_or_default`). -/
def vecAddFrames (s : Redis) (name : Bytes) : List (Nat × List Bytes) → Bytes
  | [] => []
  | (id, vec) :: rest =>
    let payload :=
      match lookupA s.store (docKey id) with
      | some (.str p) => p
      | _ => []
    logBytes [bs "VEC.ADD", name, natToDecList id, joinComma vec, payload]
      ++ vecAddFrames s name rest

/-- The `VEC.CREATE` + `VEC.ADD` sections `Redis::compact` writes. -/
def vecFramesGo (s : Redis) : List (Bytes × Index) → Bytes
  | [] => []
  | (name, idx) :: rest =>
    logBytes [bs "VEC.CREATE", name, natToDecList idx.dim, natToDecList idx.m,
        natToDecList idx.ef_construction]
      ++ vecAddFrames s name idx.vectors
      ++ vecFramesGo s rest

/-- The full contents of the temporary log `Redis::compact` writes. -/
def compactBytes (s : Redis) : Bytes := setFrames s.store ++ vecFramesGo s s.vectors

/-- `Redis::compact`: with no log path it is a no-op; otherwise write the
fresh log (one SET per live string value, then the vector sections),
atomically rename it over the old log and reopen the handle.  The
per-index `.hnsw` snapshot files are not modelled. -/
def Redis.compact (s : Redis) : Redis :=
  match s.aof with
  | none => s
  | some _ => { s with aof := some (compactBytes s) }

/-- `Redis::execute_inner`: dispatch on the uppercased command name. -/
def Redis.execute_inner (now : Nat) (s : Redis) (cmd : List Bytes) (log : Bool) :
    Resp × Redis :=
  match cmd with
  | [] => (.Error (bs "ERR empty command"), s)
  | c :: args =>
    let u := asciiUpper c
    if u = bs "SET" then Redis.cmd_set s cmd args log
    else if u = bs "GET" then Redis.cmd_get now s args
    else if u = bs "DEL" then Redis.cmd_del now s cmd args log
    else if u = bs "EXISTS" then Redis.cmd_exists now s args
    else if u = bs "HSET" then Redis.cmd_hset now s cmd args log
    else if u = bs "HGET" then Redis.cmd_hget now s args
    else if u = bs "HDEL" then Redis.cmd_hdel now s cmd args log
    else if u = bs "HGETALL" then Redis.cmd_hgetall now s args
    else if u = bs "SADD" then Redis.cmd_sadd now s cmd args log
    else if u = bs "SREM" then Redis.cmd_srem now s cmd args log
    else if u = bs "SMEMBERS" then Redis.cmd_smembers now s args
    else if u = bs "EXPIRE" then Redis.cmd_expire now s cmd args log
    else if u = bs "PEXPIRE" then Redis.cmd_pexpire now s cmd args log
    else if u = bs "TTL" then Redis.cmd_ttl now s args
    else if u = bs "PERSIST" then Redis.cmd_persist now s cmd args log
    else if u = bs "PUBLISH" then Redis.cmd_publish s args
    else if u = bs "VEC.CREATE" then Redis.cmd_vec_create s cmd args log
    else if u = bs "VEC.ADD" then Redis.cmd_vec_add s cmd args log
    else if u = bs "VEC.SEARCH" then Redis.cmd_vec_search s args
    else if u = bs "COMPACT" then (.Simple (bs "OK"), s.compact)
    else (.Error (bs "ERR unknown command"), s)

/-- `Redis::execute`: live traffic executes with logging enabled. -/
def Redis.execute (now : Nat) (s : Redis) (cmd : List Bytes) : Resp × Redis :=
  Redis.execute_inner now s cmd true

/-- `resp_to_string` from `lib.rs` (strings as bytes; a bulk payload that
is not valid UTF-8 becomes empty via `unwrap_or_default`). -/
def respToBytes : Resp → Bytes
  | .Bulk (some b) => if isValidUtf8 b then b else []
  | .Simple s => s
  | .Integer i => intToDecBytes i
  | .Error e => e
  | .Bulk none => []
  | .Array _ => []

/-- The argv a replayed frame contributes: only `Array` frames replay,
each element through `resp_to_string`. -/
def argvOfFrame : Resp → Option (List Bytes)
  | .Array (some arr) => some (arr.map respToBytes)
  | _ => none

/-- `Redis::new`: with a log path, read the file, parse it as a stream of
frames, execute every Array frame's argv with logging disabled, then
keep the handle open for appends.  A parse failure of the stream skips
replay entirely (`if let Ok(cmds)`).  Vector `.hnsw` snapshot loading is
not modelled (no snapshot files present), and replay runs at the single
construction instant `now`. -/
def Redis.new (now : Nat) (logContents : Option Bytes) : Redis :=
  match logContents with
  | none => Redis.empty
  | some L =>
    let frames :=
      match Resp.parseStream L with
      | .ok fs => fs
      | .error _ => []
    let cmds := frames.filterMap argvOfFrame
    let s1 := cmds.foldl (fun st c => (Redis.execute_inner now st c false).2) Redis.empty
    { s1 with aof := some L }

/-! ### Association-list and dispatch lemmas -/

/-- Key uniqueness: the representation invariant of a `HashMap` model. -/
def NodupKeys {α β : Type} (l : List (α × β)) : Prop := (l.map Prod.fst).Nodup

theorem lookupA_insertA_self {α β : Type} [DecidableEq α] (l : List (α × β)) (k : α) (v : β) :
    lookupA (insertA l k v) k = some v := by
  induction l with
  | nil => simp [insertA, lookupA]
  | cons p rest ih =>
    by_cases h : p.1 = k
    · simp [insertA, h, lookupA]
    · simp [insertA, h, lookupA, ih]

theorem lookupA_insertA_ne {α β : Type} [DecidableEq α] {l : List (α × β)} {k k' : α}
    (v : β) (h : k' ≠ k) : lookupA (insertA l k v) k' = lookupA l k' := by
  have hkk' : ¬ (k = k') := fun hh => h hh.symm
  induction l with
  | nil => simp [insertA, lookupA, hkk']
  | cons p rest ih =>
    by_cases hp : p.1 = k
    · have hpk' : ¬ (p.1 = k') := by rw [hp]; exact hkk'
      simp only [insertA, if_pos hp, lookupA, if_neg hkk', if_neg hpk']
    · simp only [insertA, if_neg hp, lookupA, ih]

theorem lookupA_eq_none_of_not_mem {α β : Type} [DecidableEq α] {l : List (α × β)} {k : α}
    (h : k ∉ l.map Prod.fst) : lookupA l k = none := by
  induction l with
  | nil => rfl
  | cons p rest ih =>
    simp only [List.map_cons, List.mem_cons] at h
    rw [lookupA, if_neg (fun hh => h (Or.inl hh.symm))]
    exact ih (fun hm => h (Or.inr hm))

theorem removeA_of_lookup_none {α β : Type} [DecidableEq α] {l : List (α × β)} {k : α}
    (h : lookupA l k = none) : removeA l k = l := by
  induction l with
  | nil => rfl
  | cons p rest ih =>
    rw [lookupA] at h
    by_cases hp : p.1 = k
    · rw [if_pos hp] at h
      cases h
    · rw [if_neg hp] at h
      rw [removeA, if_neg hp, ih h]

theorem lookupA_removeA_self {α β : Type} [DecidableEq α] {l : List (α × β)} {k : α}
    (h : NodupKeys l) : lookupA (removeA l k) k = none := by
  induction l with
  | nil => rfl
  | cons p rest ih =>
    rw [NodupKeys, List.map_cons, List.nodup_cons] at h
    rw [removeA]
    by_cases hp : p.1 = k
    · rw [if_pos hp]
      exact lookupA_eq_none_of_not_mem (by rw [← hp]; exact h.1)
    · rw [if_neg hp, lookupA, if_neg hp]
      exact ih h.2

theorem lookupA_removeA_ne {α β : Type} [DecidableEq α] {l : List (α × β)} {k k' : α}
    (h : k' ≠ k) : lookupA (removeA l k) k' = lookupA l k' := by
  induction l with
  | nil => rfl
  | cons p rest ih =>
    rw [removeA]
    by_cases hp : p.1 = k
    · rw [if_pos hp, lookupA, if_neg (by rw [hp]; exact fun hh => h hh.symm)]
    · rw [if_neg hp, lookupA, lookupA, ih]

theorem NodupKeys_nil {α β : Type} : NodupKeys ([] : List (α × β)) := List.nodup_nil

theorem mem_keys_insertA {α β : Type} [DecidableEq α] {l : List (α × β)} {k x : α} {v : β}
    (h : x ∈ (insertA l k v).map Prod.fst) : x ∈ l.map Prod.fst ∨ x = k := by
  induction l with
  | nil =>
    simp [insertA] at h
    exact Or.inr h
  | cons p rest ih =>
    by_cases hp : p.1 = k
    · rw [insertA, if_pos hp] at h
      simp only [List.map_cons, List.mem_cons] at h ⊢
      rcases h with h | h
      · exact Or.inr h
      · exact Or.inl (Or.inr h)
    · rw [insertA, if_neg hp] at h
      simp only [List.map_cons, List.mem_cons] at h ⊢
      rcases h with h | h
      · exact Or.inl (Or.inl h)
      · rcases ih h with h2 | h2
        · exact Or.inl (Or.inr h2)
        · exact Or.inr h2

theorem NodupKeys_insertA {α β : Type} [DecidableEq α] {l : List (α × β)} (k : α) (v : β)
    (h : NodupKeys l) : NodupKeys (insertA l k v) := by
  induction l with
  | nil => simp [insertA, NodupKeys]
  | cons p rest ih =>
    rw [NodupKeys, List.map_cons, List.nodup_cons] at h
    by_cases hp : p.1 = k
    · rw [insertA, if_pos hp, NodupKeys, List.map_cons, List.nodup_cons]
      exact ⟨hp ▸ h.1, h.2⟩
    · rw [insertA, if_neg hp, NodupKeys, List.map_cons, List.nodup_cons]
      refine ⟨?_, ih h.2⟩
      intro hm
      rcases mem_keys_insertA hm with h2 | h2
      · exact h.1 h2
      · exact hp h2

theorem mem_keys_removeA {α β : Type} [DecidableEq α] {l : List (α × β)} {k x : α}
    (h : x ∈ (removeA l k).map Prod.fst) : x ∈ l.map Prod.fst := by
  induction l with
  | nil => exact h
  | cons p rest ih =>
    by_cases hp : p.1 = k
    · rw [removeA, if_pos hp] at h
      simp only [List.map_cons, List.mem_cons]
      exact Or.inr h
    · rw [removeA, if_neg hp] at h
      simp only [List.map_cons, List.mem_cons] at h ⊢
      rcases h with h | h
      · exact Or.inl h
      · exact Or.inr (ih h)

theorem NodupKeys_removeA {α β : Type} [DecidableEq α] {l : List (α × β)} (k : α)
    (h : NodupKeys l) : NodupKeys (removeA l k) := by
  induction l with
  | nil => exact h
  | cons p rest ih =>
    rw [NodupKeys, List.map_cons, List.nodup_cons] at h
    rw [removeA]
    by_cases hp : p.1 = k
    · rw [if_pos hp]
      exact h.2
    · rw [if_neg hp, NodupKeys, List.map_cons, List.nodup_cons]
      exact ⟨fun hm => h.1 (mem_keys_removeA hm), ih h.2⟩

/-! Dispatch: `execute_inner` on each concrete command name reduces to
its handler (all definitional). -/

theorem execute_set (now : Nat) (s : Redis) (args : List Bytes) (log : Bool) :
    Redis.execute_inner now s (bs "SET" :: args) log = Redis.cmd_set s (bs "SET" :: args) args log := rfl

theorem execute_get (now : Nat) (s : Redis) (args : List Bytes) (log : Bool) :
    Redis.execute_inner now s (bs "GET" :: args) log = Redis.cmd_get now s args := rfl

theorem execute_del (now : Nat) (s : Redis) (args : List Bytes) (log : Bool) :
    Redis.execute_inner now s (bs "DEL" :: args) log
      = Redis.cmd_del now s (bs "DEL" :: args) args log := rfl

theorem execute_exists (now : Nat) (s : Redis) (args : List Bytes) (log : Bool) :
    Redis.execute_inner now s (bs "EXISTS" :: args) log = Redis.cmd_exists now s args := rfl

theorem execute_hset (now : Nat) (s : Redis) (args : List Bytes) (log : Bool) :
    Redis.execute_inner now s (bs "HSET" :: args) log
      = Redis.cmd_hset now s (bs "HSET" :: args) args log := rfl

theorem execute_hget (now : Nat) (s : Redis) (args : List Bytes) (log : Bool) :
    Redis.execute_inner now s (bs "HGET" :: args) log = Redis.cmd_hget now s args := rfl

theorem execute_hdel (now : Nat) (s : Redis) (args : List Bytes) (log : Bool) :
    Redis.execute_inner now s (bs "HDEL" :: args) log
      = Redis.cmd_hdel now s (bs "HDEL" :: args) args log := rfl

theorem execute_hgetall (now : Nat) (s : Redis) (args : List Bytes) (log : Bool) :
    Redis.execute_inner now s (bs "HGETALL" :: args) log = Redis.cmd_hgetall now s args := rfl

theorem execute_sadd (now : Nat) (s : Redis) (args : List Bytes) (log : Bool) :
    Redis.execute_inner now s (bs "SADD" :: args) log
      = Redis.cmd_sadd now s (bs "SADD" :: args) args log := rfl

theorem execute_srem (now : Nat) (s : Redis) (args : List Bytes) (log : Bool) :
    Redis.execute_inner now s (bs "SREM" :: args) log
      = Redis.cmd_srem now s (bs "SREM" :: args) args log := rfl

theorem execute_smembers (now : Nat) (s : Redis) (args : List Bytes) (log : Bool) :
    Redis.execute_inner now s (bs "SMEMBERS" :: args) log = Redis.cmd_smembers now s args := rfl

theorem execute_expire (now : Nat) (s : Redis) (args : List Bytes) (log : Bool) :
    Redis.execute_inner now s (bs "EXPIRE" :: args) log
      = Redis.cmd_expire now s (bs "EXPIRE" :: args) args log := rfl

theorem execute_pexpire (now : Nat) (s : Redis) (args : List Bytes) (log : Bool) :
    Redis.execute_inner now s (bs "PEXPIRE" :: args) log
      = Redis.cmd_pexpire now s (bs "PEXPIRE" :: args) args log := rfl

theorem execute_ttl (now : Nat) (s : Redis) (args : List Bytes) (log : Bool) :
    Redis.execute_inner now s (bs "TTL" :: args) log = Redis.cmd_ttl now s args := rfl

theorem execute_persist (now : Nat) (s : Redis) (args : List Bytes) (log : Bool) :
    Redis.execute_inner now s (bs "PERSIST" :: args) log
      = Redis.cmd_persist now s (bs "PERSIST" :: args) args log := rfl

theorem execute_publish (now : Nat) (s : Redis) (args : List Bytes) (log : Bool) :
    Redis.execute_inner now s (bs "PUBLISH" :: args) log = Redis.cmd_publish s args := rfl

theorem execute_vec_create (now : Nat) (s : Redis) (args : List Bytes) (log : Bool) :
    Redis.execute_inner now s (bs "VEC.CREATE" :: args) log
      = Redis.cmd_vec_create s (bs "VEC.CREATE" :: args) args log := rfl

theorem execute_vec_add (now : Nat) (s : Redis) (args : List Bytes) (log : Bool) :
    Redis.execute_inner now s (bs "VEC.ADD" :: args) log
      = Redis.cmd_vec_add s (bs "VEC.ADD" :: args) args log := rfl

theorem execute_vec_search (now : Nat) (s : Redis) (args : List Bytes) (log : Bool) :
    Redis.execute_inner now s (bs "VEC.SEARCH" :: args) log = Redis.cmd_vec_search s args := rfl

/-! ### Helper facts about the store -/

theorem cleanup_key_live {s : Redis} {now : Nat} {k : Bytes}
    (h : ∀ t, lookupA s.expires k = some t → now < t) :
    s.cleanup_key now k = s := by
  rw [Redis.cleanup_key]
  cases hx : lookupA s.expires k with
  | none => rfl
  | some t =>
    have hn : ¬ t ≤ now := by have := h t hx; omega
    simp only [hn, if_false]

theorem log_store (s : Redis) (cmd : List Bytes) : (s.log cmd).store = s.store := by
  rw [Redis.log]
  cases s.aof <;> rfl

theorem log_expires (s : Redis) (cmd : List Bytes) : (s.log cmd).expires = s.expires := by
  rw [Redis.log]
  cases s.aof <;> rfl

theorem log_pubsub (s : Redis) (cmd : List Bytes) : (s.log cmd).pubsub = s.pubsub := by
  rw [Redis.log]
  cases s.aof <;> rfl

theorem log_vectors (s : Redis) (cmd : List Bytes) : (s.log cmd).vectors = s.vectors := by
  rw [Redis.log]
  cases s.aof <;> rfl

theorem log_if_store (s : Redis) (cmd : List Bytes) (b : Bool) :
    ((if b then s.log cmd else s) : Redis).store = s.store := by
  cases b
  · rfl
  · rw [if_pos rfl]
    exact log_store s cmd

theorem log_if_expires (s : Redis) (cmd : List Bytes) (b : Bool) :
    ((if b then s.log cmd else s) : Redis).expires = s.expires := by
  cases b
  · rfl
  · rw [if_pos rfl]
    exact log_expires s cmd

theorem u64AsI64_small {x : Nat} (h : x < 2 ^ 63) : u64AsI64 x = (x : Int) := by
  rw [u64AsI64]
  have h1 : (x : Int) % 2 ^ 64 = (x : Int) :=
    Int.emod_eq_of_lt (by positivity) (by exact_mod_cast (by omega : x < 2 ^ 64))
  simp only [h1]
  rw [if_pos (by exact_mod_cast h)]

/-! ### Claim C7: `VEC.ADD` dimension mismatch mutates nothing -/

/-- C7: a `VEC.ADD` whose parsed vector's length differs from the target
index's dimension replies an Error and returns the state unchanged — the
graph, the id→vector map and the `doc:<id>` key are all untouched. -/
theorem c7_vec_add_dim_mismatch (now : Nat) (s : Redis) (key idS vecS payload : Bytes)
    (idx : Index) (hidx : lookupA s.vectors key = some idx)
    (hdim : (parseVecF32 vecS).length ≠ idx.dim) :
    Redis.execute now s [bs "VEC.ADD", key, idS, vecS, payload]
      = (.Error (bs "ERR dimension mismatch"), s) := by
  rw [Redis.execute, execute_vec_add, Redis.cmd_vec_add]
  simp only [hidx, Index.add, if_pos hdim]
  rfl

/-- Witness for `c7_vec_add_dim_mismatch`: a 1-component vector against a
dimension-2 index. -/
theorem c7_vec_add_dim_mismatch_witness :
    Redis.execute 0 (Redis.execute 0 Redis.empty
        [bs "VEC.CREATE", bs "idx", bs "2", bs "4", bs "10"]).2
      [bs "VEC.ADD", bs "idx", bs "7", bs "1.0", bs "p"]
    = (.Error (bs "ERR dimension mismatch"),
       (Redis.execute 0 Redis.empty [bs "VEC.CREATE", bs "idx", bs "2", bs "4", bs "10"]).2) :=
  c7_vec_add_dim_mismatch 0 _ (bs "idx") (bs "7") (bs "1.0") (bs "p")
    (Index.new 2 4 10) rfl (by decide)

/-! ### Claim C8: `publish` and the lazily created registry -/

/-- C8 (counterexample): publishing to a never-subscribed channel returns
0 but does NOT create a registry entry (only `subscribe` creates one),
refuting "created lazily on first subscribe or on
publish-with-no-subscribers". -/
theorem c8_counterexample :
    Redis.empty.publish (bs "news") (bs "hi") = 0
    ∧ (Redis.execute 0 Redis.empty [bs "PUBLISH", bs "news", bs "hi"]).1 = .Integer 0
    ∧ lookupA (Redis.execute 0 Redis.empty [bs "PUBLISH", bs "news", bs "hi"]).2.pubsub
        (bs "news") = none :=
  ⟨rfl, rfl, rfl⟩

/-- C8 (amended): `publish` returns 0 on a never-subscribed channel and
otherwise the number of receivers that accepted the message; the
`PUBLISH` command never mutates the registry, and the fan-out entry is
created lazily by `subscribe` alone. -/
theorem c8_publish (s : Redis) (ch msg : Bytes) :
    (lookupA s.pubsub ch = none → s.publish ch msg = 0)
    ∧ (∀ n, lookupA s.pubsub ch = some n → 0 < n → s.publish ch msg = n)
    ∧ (∀ now, Redis.execute now s [bs "PUBLISH", ch, msg]
        = (.Integer (s.publish ch msg), s))
    ∧ (lookupA s.pubsub ch = none → lookupA (s.subscribe ch).pubsub ch = some 1)
    ∧ (∀ n, lookupA s.pubsub ch = some n →
        lookupA (s.subscribe ch).pubsub ch = some (n + 1)) := by
  refine ⟨?_, ?_, ?_, ?_, ?_⟩
  · intro h
    rw [Redis.publish, h]
  · intro n h hn
    rw [Redis.publish, h]
    simp only [if_neg (by omega : ¬ n = 0)]
  · intro now
    rw [Redis.execute, execute_publish, Redis.cmd_publish]
  · intro h
    rw [Redis.subscribe, h]
    exact lookupA_insertA_self _ _ _
  · intro n h
    rw [Redis.subscribe, h]
    exact lookupA_insertA_self _ _ _

/-- Witness for `c8_publish` on a channel with one subscriber. -/
theorem c8_publish_witness :
    (Redis.empty.subscribe (bs "ch")).publish (bs "ch") (bs "m") = 1
    ∧ lookupA ((Redis.empty.subscribe (bs "ch")).subscribe (bs "ch")).pubsub (bs "ch")
        = some 2 :=
  ⟨(c8_publish (Redis.empty.subscribe (bs "ch")) (bs "ch") (bs "m")).2.1 1 rfl (by omega),
   ((c8_publish (Redis.empty.subscribe (bs "ch")) (bs "ch") (bs "m")).2.2.2.2) 1 rfl⟩

/-! ### Claim C10: wrong-typed SADD/SREM/HDEL are read-only -/

/-- C10: on a live key holding a value of a different type, `SADD` and
`SREM` (non-set value) and `HDEL` (non-hash value) reply `Integer 0` and
leave the key space unchanged (only the log grows), while `HSET`
replaces a non-hash value by a fresh one-field hash and replies 1. -/
theorem c10_wrong_type_noop (now : Nat) (s : Redis) (k : Bytes) (v : Value)
    (hk : lookupA s.store k = some v)
    (hlive : ∀ t, lookupA s.expires k = some t → now < t) :
    (∀ m ms, (∀ ss, v ≠ .set ss) →
      Redis.execute now s (bs "SADD" :: k :: m :: ms)
        = (.Integer 0, s.log (bs "SADD" :: k :: m :: ms)))
    ∧ (∀ m ms, (∀ ss, v ≠ .set ss) →
      Redis.execute now s (bs "SREM" :: k :: m :: ms)
        = (.Integer 0, s.log (bs "SREM" :: k :: m :: ms)))
    ∧ (∀ fd, (∀ hh, v ≠ .hash hh) →
      Redis.execute now s [bs "HDEL", k, fd]
        = (.Integer 0, s.log [bs "HDEL", k, fd]))
    ∧ (∀ fd vl, (∀ hh, v ≠ .hash hh) →
      (Redis.execute now s [bs "HSET", k, fd, vl]).1 = .Integer 1
      ∧ lookupA (Redis.execute now s [bs "HSET", k, fd, vl]).2.store k
          = some (.hash [(fd, vl)]))
    ∧ (∀ cmd, (s.log cmd).store = s.store) := by
  refine ⟨?_, ?_, ?_, ?_, log_store s⟩
  · intro m ms hns
    rw [Redis.execute, execute_sadd, Redis.cmd_sadd]
    simp only [cleanup_key_live hlive, hk]
    cases v with
    | str sv => rfl
    | hash hh => rfl
    | set ss => exact absurd rfl (hns ss)
  · intro m ms hns
    rw [Redis.execute, execute_srem, Redis.cmd_srem]
    simp only [cleanup_key_live hlive, hk]
    cases v with
    | str sv => rfl
    | hash hh => rfl
    | set ss => exact absurd rfl (hns ss)
  · intro fd hnh
    rw [Redis.execute, execute_hdel, Redis.cmd_hdel]
    simp only [cleanup_key_live hlive, hk]
    cases v with
    | str sv => rfl
    | hash hh => exact absurd rfl (hnh hh)
    | set ss => rfl
  · intro fd vl hnh
    cases v with
    | str sv =>
      have hstep : Redis.execute now s [bs "HSET", k, fd, vl]
          = (.Integer 1, ({ s with store := insertA s.store k (.hash [(fd, vl)]) } : Redis).log
              (bs "HSET" :: k :: fd :: vl :: [])) := by
        rw [Redis.execute, execute_hset, Redis.cmd_hset]
        simp only [cleanup_key_live hlive, hk, if_true]
      rw [hstep]
      exact ⟨rfl, by rw [log_store]; exact lookupA_insertA_self _ _ _⟩
    | hash hh => exact absurd rfl (hnh hh)
    | set ss =>
      have hstep : Redis.execute now s [bs "HSET", k, fd, vl]
          = (.Integer 1, ({ s with store := insertA s.store k (.hash [(fd, vl)]) } : Redis).log
              (bs "HSET" :: k :: fd :: vl :: [])) := by
        rw [Redis.execute, execute_hset, Redis.cmd_hset]
        simp only [cleanup_key_live hlive, hk, if_true]
      rw [hstep]
      exact ⟨rfl, by rw [log_store]; exact lookupA_insertA_self _ _ _⟩

/-- Witness for `c10_wrong_type_noop`: `SADD`/`HDEL` against a
string-typed key. -/
theorem c10_wrong_type_noop_witness :
    Redis.execute 0 { Redis.empty with store := [(bs "k", .str (bs "v"))] }
        (bs "SADD" :: bs "k" :: bs "m" :: [])
      = (.Integer 0, { Redis.empty with store := [(bs "k", .str (bs "v"))] })
    ∧ (Redis.execute 0 { Redis.empty with store := [(bs "k", .str (bs "v"))] }
        [bs "HSET", bs "k", bs "f", bs "w"]).1 = .Integer 1 :=
  ⟨(c10_wrong_type_noop 0 { Redis.empty with store := [(bs "k", Value.str (bs "v"))] }
      (bs "k") (Value.str (bs "v")) rfl (fun t ht => by simp [Redis.empty, lookupA] at ht)).1
      (bs "m") [] (fun ss h => by simp at h),
   ((c10_wrong_type_noop 0 { Redis.empty with store := [(bs "k", Value.str (bs "v"))] }
      (bs "k") (Value.str (bs "v")) rfl (fun t ht => by simp [Redis.empty, lookupA] at ht)).2.2.2.1
      (bs "f") (bs "w") (fun hh h => by simp at h)).1⟩

/-! ### Step lemmas for SET / EXPIRE / GET / TTL -/

theorem cleanup_key_noexp {s : Redis} {now : Nat} {k : Bytes}
    (h : lookupA s.expires k = none) : s.cleanup_key now k = s := by
  rw [Redis.cleanup_key, h]

theorem cleanup_key_expired {s : Redis} {now : Nat} {k : Bytes} {t : Nat}
    (h : lookupA s.expires k = some t) (ht : t ≤ now) :
    s.cleanup_key now k
      = { s with expires := removeA s.expires k, store := removeA s.store k } := by
  rw [Redis.cleanup_key, h]
  simp only [ht, if_true]

theorem set_step (now : Nat) (s : Redis) (k v : Bytes) :
    Redis.execute now s [bs "SET", k, v]
      = (.Simple (bs "OK"),
        Redis.log { s with store := insertA s.store k (.str v), expires := removeA s.expires k } (bs "SET" :: k :: v :: [])) := rfl

theorem expire_step {now : Nat} {s : Redis} {k : Bytes} (d : Bytes) {v : Value}
    (hk : lookupA s.store k = some v)
    (hlive : ∀ t, lookupA s.expires k = some t → now < t) :
    Redis.execute now s [bs "EXPIRE", k, d]
      = (.Integer 1,
        Redis.log { s with expires := insertA s.expires k (now + 1000 * i64AsU64 ((parseI64 d).getD 0)) } (bs "EXPIRE" :: k :: d :: [])) := by
  rw [Redis.execute, execute_expire, Redis.cmd_expire]
  simp only [cleanup_key_live hlive, hk, Option.isSome_some, if_true]

theorem pexpire_step {now : Nat} {s : Redis} {k : Bytes} (d : Bytes) {v : Value}
    (hk : lookupA s.store k = some v)
    (hlive : ∀ t, lookupA s.expires k = some t → now < t) :
    Redis.execute now s [bs "PEXPIRE", k, d]
      = (.Integer 1,
        Redis.log { s with expires := insertA s.expires k (now + i64AsU64 ((parseI64 d).getD 0)) } (bs "PEXPIRE" :: k :: d :: [])) := by
  rw [Redis.execute, execute_pexpire, Redis.cmd_pexpire]
  simp only [cleanup_key_live hlive, hk, Option.isSome_some, if_true]

theorem get_expired {s : Redis} {now t : Nat} {k : Bytes}
    (hexp : lookupA s.expires k = some t) (ht : t ≤ now)
    (hnd : NodupKeys s.store) :
    (Redis.execute now s [bs "GET", k]).1 = .Bulk none := by
  rw [Redis.execute, execute_get, Redis.cmd_get, cleanup_key_expired hexp ht]
  simp only [lookupA_removeA_self hnd]

theorem get_live_str {s : Redis} {now : Nat} {k sv : Bytes}
    (hk : lookupA s.store k = some (.str sv))
    (hlive : ∀ t, lookupA s.expires k = some t → now < t) :
    (Redis.execute now s [bs "GET", k]).1 = .Bulk (some sv) := by
  rw [Redis.execute, execute_get, Redis.cmd_get, cleanup_key_live hlive]
  simp only [hk]

/-! ### Claim C9: EXPIRE/PEXPIRE duration parsing -/

/-- `Instant::now() + Duration::from_secs sec`: `Add<Duration> for
Instant` is `checked_add(...).expect("overflow when adding duration to
instant")`, so `none` is the panic.  The addition is representable only
when the summed seconds fit the timespec's signed 64-bit `tv_sec`; in
particular it fails for every `sec ≥ 2 ^ 63`, whatever the instant.
`Redis.cmd_expire` stores `now + 1000 * sec`, the value of the addition
on its success region (see `instantPlusSecs_some`). -/
def instantPlusSecs (now sec : Nat) : Option Nat :=
  if now / 1000 + sec < 2 ^ 63 then some (now + 1000 * sec) else none

theorem instantPlusSecs_some {now sec t : Nat} (h : instantPlusSecs now sec = some t) :
    t = now + 1000 * sec := by
  rw [instantPlusSecs] at h
  split at h
  · injection h with h'
    exact h'.symm
  · cases h

theorem parseI64_range {d : List Nat} {n : Int} (h : parseI64 d = some n) :
    -(2 ^ 63) ≤ n ∧ n < 2 ^ 63 := by
  rw [parseI64.eq_def] at h
  split at h <;> (try split at h) <;> (try split at h) <;>
    first
      | (injection h with h'
         subst h'
         constructor <;> omega)
      | cases h

theorem i64AsU64_neg {n : Int} (h1 : -(2 ^ 63) ≤ n) (h2 : n < 0) :
    (i64AsU64 n : Int) = n + 2 ^ 64 ∧ 2 ^ 63 ≤ i64AsU64 n := by
  rw [i64AsU64]
  have hm : n % (2 ^ 64 : Int) = n + 2 ^ 64 := by omega
  rw [hm]
  constructor
  · rw [Int.toNat_of_nonneg (by omega)]
  · omega

/-- C9 counterexample: for the negative duration `"-1"` the `as u64`
reinterpretation lands at `2 ^ 64 − 1 ≥ 2 ^ 63` seconds, so the checked
`Instant` addition `EXPIRE` performs has no representable result at any
instant — the program panics instead of storing the deadline the claim
describes. -/
theorem c9_counterexample :
    parseI64 (bs "-1") = some (-1)
    ∧ (i64AsU64 (-1) : Int) = -1 + 2 ^ 64
    ∧ ∀ now : Nat, instantPlusSecs now (i64AsU64 (-1)) = none := by
  refine ⟨rfl, ?_, ?_⟩
  · exact (i64AsU64_neg (by omega : -(2 ^ 63) ≤ (-1 : Int)) (by omega)).1
  · intro now
    have h2 : 2 ^ 63 ≤ i64AsU64 (-1) :=
      (i64AsU64_neg (by omega : -(2 ^ 63) ≤ (-1 : Int)) (by omega)).2
    rw [instantPlusSecs, if_neg (by omega)]

/-- C9 (amended): on a live existing key, an `EXPIRE`/`PEXPIRE` duration
that fails to parse as `i64` is treated as 0 — the deadline becomes
`now`, so the key is expired at its next access.  A negative duration is
reinterpreted as an unsigned 64-bit value modulo `2 ^ 64`; for `EXPIRE`
the resulting `n + 2 ^ 64 ≥ 2 ^ 63` seconds make the checked `Instant`
addition fail, so the program panics before storing any deadline
(whenever that addition does succeed, its value is the `now + 1000·sec`
the model stores), while `PEXPIRE`'s millisecond duration stays
representable and the stored deadline is `now + (n mod 2 ^ 64)`. -/
theorem c9_expire_duration (now : Nat) (s : Redis) (k d : Bytes) (v : Value)
    (hk : lookupA s.store k = some v)
    (hlive : ∀ t, lookupA s.expires k = some t → now < t)
    (hnd : NodupKeys s.store) :
    (parseI64 d = none →
      (Redis.execute now s [bs "EXPIRE", k, d]).1 = .Integer 1
      ∧ lookupA (Redis.execute now s [bs "EXPIRE", k, d]).2.expires k = some now
      ∧ ∀ now', now ≤ now' →
          (Redis.execute now' (Redis.execute now s [bs "EXPIRE", k, d]).2 [bs "GET", k]).1
            = .Bulk none)
    ∧ (∀ n : Int, parseI64 d = some n → n < 0 →
        (i64AsU64 n : Int) = n + 2 ^ 64
        ∧ instantPlusSecs now (i64AsU64 n) = none)
    ∧ (∀ sec t : Nat, instantPlusSecs now sec = some t → t = now + 1000 * sec)
    ∧ (∀ n : Int, parseI64 d = some n → n < 0 →
        lookupA (Redis.execute now s [bs "PEXPIRE", k, d]).2.expires k
          = some (now + i64AsU64 n)) := by
  refine ⟨?_, ?_, ?_, ?_⟩
  · intro hparse
    have hdl : now + 1000 * i64AsU64 ((parseI64 d).getD 0) = now := by
      rw [hparse]
      rfl
    rw [expire_step d hk hlive, hdl]
    refine ⟨rfl, ?_, ?_⟩
    · rw [log_expires]
      exact lookupA_insertA_self _ _ _
    · intro now' hnow
      refine get_expired ?_ hnow ?_
      · rw [log_expires]
        exact lookupA_insertA_self _ _ _
      · rw [log_store]
        exact hnd
  · intro n hparse hneg
    have hr := parseI64_range hparse
    have hneg2 := i64AsU64_neg hr.1 hneg
    refine ⟨hneg2.1, ?_⟩
    have h2 := hneg2.2
    rw [instantPlusSecs, if_neg (by omega)]
  · exact fun sec t ht => instantPlusSecs_some ht
  · intro n hparse hneg
    rw [pexpire_step d hk hlive, hparse]
    rw [log_expires]
    exact lookupA_insertA_self _ _ _

/-- Witness for `c9_expire_duration`: a live key, the unparsable duration
`"abc"` and the negative duration `"-1"` (for `EXPIRE` the checked
addition fails; for `PEXPIRE` the deadline is `now + (2 ^ 64 − 1)` ms). -/
theorem c9_expire_duration_witness :
    ((Redis.execute 5 { Redis.empty with store := [(bs "k", .str (bs "v"))] }
        [bs "EXPIRE", bs "k", bs "abc"]).1 = .Integer 1)
    ∧ ((i64AsU64 (-1) : Int) = -1 + 2 ^ 64
        ∧ instantPlusSecs 5 (i64AsU64 (-1)) = none)
    ∧ lookupA (Redis.execute 5 { Redis.empty with store := [(bs "k", .str (bs "v"))] }
        [bs "PEXPIRE", bs "k", bs "-1"]).2.expires (bs "k")
      = some (5 + (2 ^ 64 - 1)) := by
  have h := c9_expire_duration 5 { Redis.empty with store := [(bs "k", Value.str (bs "v"))] }
    (bs "k") (bs "-1") (.str (bs "v")) rfl
    (fun t ht => by simp [Redis.empty, lookupA] at ht) (by simp [NodupKeys])
  have habc := c9_expire_duration 5 { Redis.empty with store := [(bs "k", Value.str (bs "v"))] }
    (bs "k") (bs "abc") (.str (bs "v")) rfl
    (fun t ht => by simp [Redis.empty, lookupA] at ht) (by simp [NodupKeys])
  refine ⟨(habc.1 rfl).1, h.2.1 (-1) rfl (by omega), ?_⟩
  have hp := h.2.2.2 (-1) rfl (by omega)
  rw [hp]
  rfl

/-! ### Claim C4: TTL and the EXPIRE scenario -/

/-- C4: `TTL k` replies −2 when `k` is absent (including a passed
deadline), −1 when `k` has no deadline, else the whole seconds remaining
(representable deadlines: the runtime aborts before a deadline ≥ 2^63
seconds away can be stored, see `Instant` addition overflow); and after
`SET k v` then `EXPIRE k 1`, `GET k` returns the value before the
deadline and a null bulk once the deadline has passed. -/
theorem c4_ttl (now : Nat) (s : Redis) (k : Bytes) (hnd : NodupKeys s.store) :
    ((lookupA s.store k = none ∨ ∃ t, lookupA s.expires k = some t ∧ t ≤ now) →
      (Redis.execute now s [bs "TTL", k]).1 = .Integer (-2))
    ∧ (∀ v, lookupA s.store k = some v → lookupA s.expires k = none →
      (Redis.execute now s [bs "TTL", k]).1 = .Integer (-1))
    ∧ (∀ v t, lookupA s.store k = some v → lookupA s.expires k = some t → now < t →
      (t - now) / 1000 < 2 ^ 63 →
      (Redis.execute now s [bs "TTL", k]).1 = .Integer (((t - now) / 1000 : Nat)))
    ∧ (∀ (n0 n1 n2 n3 : Nat) (s0 : Redis) (v : Bytes),
      NodupKeys s0.store → NodupKeys s0.expires →
      (n2 < n1 + 1000 →
        (Redis.execute n2 (Redis.execute n1 (Redis.execute n0 s0 [bs "SET", k, v]).2
          [bs "EXPIRE", k, bs "1"]).2 [bs "GET", k]).1 = .Bulk (some v))
      ∧ (n1 + 1000 ≤ n3 →
        (Redis.execute n3 (Redis.execute n1 (Redis.execute n0 s0 [bs "SET", k, v]).2
          [bs "EXPIRE", k, bs "1"]).2 [bs "GET", k]).1 = .Bulk none)) := by
  refine ⟨?_, ?_, ?_, ?_⟩
  · intro habs
    rw [Redis.execute, execute_ttl, Redis.cmd_ttl]
    rcases habs with hnone | ⟨t, hexp, ht⟩
    · cases hx : lookupA s.expires k with
      | none =>
        rw [cleanup_key_noexp hx]
        simp only [hnone, Option.isNone_none, if_true]
      | some t =>
        by_cases ht : t ≤ now
        · rw [cleanup_key_expired hx ht]
          simp only [removeA_of_lookup_none hnone, hnone, Option.isNone_none, if_true]
        · rw [cleanup_key_live (fun t' ht' => by rw [hx] at ht'; injection ht' with h; omega)]
          simp only [hnone, Option.isNone_none, if_true]
    · rw [cleanup_key_expired hexp ht]
      simp only [lookupA_removeA_self hnd, Option.isNone_none, if_true]
  · intro v hv hexp
    rw [Redis.execute, execute_ttl, Redis.cmd_ttl, cleanup_key_noexp hexp]
    simp only [hv, Option.isNone_some, Bool.false_eq_true, if_false, hexp]
  · intro v t hv hexp hlt hrep
    rw [Redis.execute, execute_ttl, Redis.cmd_ttl,
      cleanup_key_live (fun t' ht' => by rw [hexp] at ht'; injection ht' with h; omega)]
    simp only [hv, Option.isNone_some, Bool.false_eq_true, if_false, hexp, u64AsI64_small hrep]
  · intro n0 n1 n2 n3 s0 v hnd0 hnde0
    have hdl : n1 + 1000 * i64AsU64 ((parseI64 (bs "1")).getD 0) = n1 + 1000 := by rfl
    have hs1 := set_step n0 s0 k v
    have hk1 : lookupA (Redis.execute n0 s0 [bs "SET", k, v]).2.store k = some (.str v) := by
      rw [hs1, log_store]
      exact lookupA_insertA_self _ _ _
    have hlive1 : ∀ t, lookupA (Redis.execute n0 s0 [bs "SET", k, v]).2.expires k = some t →
        n1 < t := by
      intro t ht
      rw [hs1, log_expires] at ht
      rw [lookupA_removeA_self hnde0] at ht
      cases ht
    have hs2 := expire_step (bs "1") hk1 hlive1
    have hexp2 : lookupA (Redis.execute n1 (Redis.execute n0 s0 [bs "SET", k, v]).2
        [bs "EXPIRE", k, bs "1"]).2.expires k = some (n1 + 1000) := by
      rw [hs2, log_expires, hdl]
      exact lookupA_insertA_self _ _ _
    have hst2 : (Redis.execute n1 (Redis.execute n0 s0 [bs "SET", k, v]).2
        [bs "EXPIRE", k, bs "1"]).2.store = insertA s0.store k (.str v) := by
      rw [hs2, log_store]
      rw [hs1, log_store]
    constructor
    · intro hbefore
      refine get_live_str ?_ ?_
      · rw [hst2]
        exact lookupA_insertA_self _ _ _
      · intro t ht
        rw [hexp2] at ht
        injection ht with h
        omega
    · intro hafter
      refine get_expired hexp2 hafter ?_
      rw [hst2]
      exact NodupKeys_insertA _ _ hnd0

/-- Witness for `c4_ttl` at concrete states and times. -/
theorem c4_ttl_witness :
    (Redis.execute 0 Redis.empty [bs "TTL", bs "k"]).1 = .Integer (-2)
    ∧ (Redis.execute 0 { Redis.empty with store := [(bs "k", .str (bs "v"))] }
        [bs "TTL", bs "k"]).1 = .Integer (-1)
    ∧ (Redis.execute 0 { Redis.empty with store := [(bs "k", .str (bs "v"))], expires := [(bs "k", 2500)] } [bs "TTL", bs "k"]).1 = .Integer 2
    ∧ (Redis.execute 7 (Redis.execute 3 (Redis.execute 0 Redis.empty [bs "SET", bs "k", bs "v"]).2
        [bs "EXPIRE", bs "k", bs "1"]).2 [bs "GET", bs "k"]).1 = .Bulk (some (bs "v"))
    ∧ (Redis.execute 1003 (Redis.execute 3 (Redis.execute 0 Redis.empty [bs "SET", bs "k", bs "v"]).2
        [bs "EXPIRE", bs "k", bs "1"]).2 [bs "GET", bs "k"]).1 = .Bulk none := by
  have hbase := c4_ttl 0 Redis.empty (bs "k") (by simp [NodupKeys, Redis.empty])
  have h1 := c4_ttl 0 { Redis.empty with store := [(bs "k", Value.str (bs "v"))] } (bs "k")
    (by simp [NodupKeys, Redis.empty])
  have h2 := c4_ttl 0 { Redis.empty with store := [(bs "k", Value.str (bs "v"))], expires := [(bs "k", 2500)] } (bs "k") (by simp [NodupKeys, Redis.empty])
  refine ⟨hbase.1 (Or.inl rfl), h1.2.1 (.str (bs "v")) rfl rfl, ?_, ?_, ?_⟩
  · have := h2.2.2.1 (.str (bs "v")) 2500 rfl rfl (by omega) (by omega)
    rw [this]
    rfl
  · exact ((hbase.2.2.2 0 3 7 1003 Redis.empty (bs "v")
      (by simp [NodupKeys, Redis.empty]) (by simp [NodupKeys, Redis.empty])).1 (by omega))
  · exact ((hbase.2.2.2 0 3 7 1003 Redis.empty (bs "v")
      (by simp [NodupKeys, Redis.empty]) (by simp [NodupKeys, Redis.empty])).2 (by omega))

/-! ### Claim C6: arity and type errors -/

/-- C6 counterexample: `DEL` with no key argument replies `Integer 0`,
not an Error, and `HGET` on a string-typed key replies a null bulk, not
an Error — refuting the claim that every arity violation and type
mismatch produces an Error reply. -/
theorem c6_counterexample :
    ((Redis.execute 0 Redis.empty [bs "DEL"]).1 = .Integer 0
      ∧ ∀ e, (Redis.execute 0 Redis.empty [bs "DEL"]).1 ≠ .Error e)
    ∧ ((Redis.execute 0 (Redis.execute 0 Redis.empty [bs "SET", bs "k", bs "v"]).2
          [bs "HGET", bs "k", bs "f"]).1 = .Bulk none
      ∧ ∀ e, (Redis.execute 0 (Redis.execute 0 Redis.empty [bs "SET", bs "k", bs "v"]).2
          [bs "HGET", bs "k", bs "f"]).1 ≠ .Error e) := by
  have h1 : (Redis.execute 0 Redis.empty [bs "DEL"]).1 = .Integer 0 := rfl
  have h2 : (Redis.execute 0 (Redis.execute 0 Redis.empty [bs "SET", bs "k", bs "v"]).2
      [bs "HGET", bs "k", bs "f"]).1 = .Bulk none := rfl
  exact ⟨⟨h1, fun e he => Resp.noConfusion (h1.symm.trans he)⟩,
    ⟨h2, fun e he => Resp.noConfusion (h2.symm.trans he)⟩⟩

/-- C6 (amended): every command with a checked minimal arity replies
`Error "ERR wrong number of arguments"` and leaves the state unchanged
when given fewer arguments; the empty command and unknown commands also
reply Errors.  But `DEL` and `EXISTS` accept any number of keys,
including zero (replying `Integer 0`), and `HGET` on a string-typed key
replies a null bulk: those arity and type mismatches are silent, and no
reply path panics. -/
theorem c6_arity_and_type_errors (now : Nat) (s : Redis) (lg : Bool) :
    (∀ args, args.length < 2 → Redis.execute_inner now s (bs "SET" :: args) lg
        = (.Error (bs "ERR wrong number of arguments"), s))
    ∧ (∀ args, args.length < 1 → Redis.execute_inner now s (bs "GET" :: args) lg
        = (.Error (bs "ERR wrong number of arguments"), s))
    ∧ (∀ args, args.length < 3 → Redis.execute_inner now s (bs "HSET" :: args) lg
        = (.Error (bs "ERR wrong number of arguments"), s))
    ∧ (∀ args, args.length < 2 → Redis.execute_inner now s (bs "HGET" :: args) lg
        = (.Error (bs "ERR wrong number of arguments"), s))
    ∧ (∀ args, args.length < 2 → Redis.execute_inner now s (bs "HDEL" :: args) lg
        = (.Error (bs "ERR wrong number of arguments"), s))
    ∧ (∀ args, args.length < 1 → Redis.execute_inner now s (bs "HGETALL" :: args) lg
        = (.Error (bs "ERR wrong number of arguments"), s))
    ∧ (∀ args, args.length < 2 → Redis.execute_inner now s (bs "SADD" :: args) lg
        = (.Error (bs "ERR wrong number of arguments"), s))
    ∧ (∀ args, args.length < 2 → Redis.execute_inner now s (bs "SREM" :: args) lg
        = (.Error (bs "ERR wrong number of arguments"), s))
    ∧ (∀ args, args.length < 1 → Redis.execute_inner now s (bs "SMEMBERS" :: args) lg
        = (.Error (bs "ERR wrong number of arguments"), s))
    ∧ (∀ args, args.length < 2 → Redis.execute_inner now s (bs "EXPIRE" :: args) lg
        = (.Error (bs "ERR wrong number of arguments"), s))
    ∧ (∀ args, args.length < 2 → Redis.execute_inner now s (bs "PEXPIRE" :: args) lg
        = (.Error (bs "ERR wrong number of arguments"), s))
    ∧ (∀ args, args.length < 1 → Redis.execute_inner now s (bs "TTL" :: args) lg
        = (.Error (bs "ERR wrong number of arguments"), s))
    ∧ (∀ args, args.length < 1 → Redis.execute_inner now s (bs "PERSIST" :: args) lg
        = (.Error (bs "ERR wrong number of arguments"), s))
    ∧ (∀ args, args.length < 2 → Redis.execute_inner now s (bs "PUBLISH" :: args) lg
        = (.Error (bs "ERR wrong number of arguments"), s))
    ∧ (∀ args, args.length < 4 → Redis.execute_inner now s (bs "VEC.CREATE" :: args) lg
        = (.Error (bs "ERR wrong number of arguments"), s))
    ∧ (∀ args, args.length < 4 → Redis.execute_inner now s (bs "VEC.ADD" :: args) lg
        = (.Error (bs "ERR wrong number of arguments"), s))
    ∧ (∀ args, args.length < 4 → Redis.execute_inner now s (bs "VEC.SEARCH" :: args) lg
        = (.Error (bs "ERR wrong number of arguments"), s))
    ∧ Redis.execute_inner now s [] lg = (.Error (bs "ERR empty command"), s)
    ∧ (∀ args, Redis.execute_inner now s (bs "NOSUCH" :: args) lg
        = (.Error (bs "ERR unknown command"), s))
    ∧ (Redis.execute_inner now s [bs "DEL"] lg).1 = .Integer 0
    ∧ (Redis.execute_inner now s [bs "EXISTS"] lg).1 = .Integer 0
    ∧ (∀ k f sv, lookupA s.store k = some (.str sv) →
        (∀ t, lookupA s.expires k = some t → now < t) →
        (Redis.execute now s [bs "HGET", k, f]).1 = .Bulk none) := by
  refine ⟨?_, ?_, ?_, ?_, ?_, ?_, ?_, ?_, ?_, ?_, ?_, ?_, ?_, ?_, ?_, ?_, ?_, ?_, ?_, ?_, ?_, ?_⟩
  · intro args h
    rcases args with _ | ⟨a, _ | ⟨b, t⟩⟩
    · rfl
    · rfl
    · simp only [List.length_cons] at h
      omega
  · intro args h
    rcases args with _ | ⟨a, t⟩
    · rfl
    · simp only [List.length_cons] at h
      omega
  · intro args h
    rcases args with _ | ⟨a, _ | ⟨b, _ | ⟨c, t⟩⟩⟩
    · rfl
    · rfl
    · rfl
    · simp only [List.length_cons] at h
      omega
  · intro args h
    rcases args with _ | ⟨a, _ | ⟨b, t⟩⟩
    · rfl
    · rfl
    · simp only [List.length_cons] at h
      omega
  · intro args h
    rcases args with _ | ⟨a, _ | ⟨b, t⟩⟩
    · rfl
    · rfl
    · simp only [List.length_cons] at h
      omega
  · intro args h
    rcases args with _ | ⟨a, t⟩
    · rfl
    · simp only [List.length_cons] at h
      omega
  · intro args h
    rcases args with _ | ⟨a, _ | ⟨b, t⟩⟩
    · rfl
    · rfl
    · simp only [List.length_cons] at h
      omega
  · intro args h
    rcases args with _ | ⟨a, _ | ⟨b, t⟩⟩
    · rfl
    · rfl
    · simp only [List.length_cons] at h
      omega
  · intro args h
    rcases args with _ | ⟨a, t⟩
    · rfl
    · simp only [List.length_cons] at h
      omega
  · intro args h
    rcases args with _ | ⟨a, _ | ⟨b, t⟩⟩
    · rfl
    · rfl
    · simp only [List.length_cons] at h
      omega
  · intro args h
    rcases args with _ | ⟨a, _ | ⟨b, t⟩⟩
    · rfl
    · rfl
    · simp only [List.length_cons] at h
      omega
  · intro args h
    rcases args with _ | ⟨a, t⟩
    · rfl
    · simp only [List.length_cons] at h
      omega
  · intro args h
    rcases args with _ | ⟨a, t⟩
    · rfl
    · simp only [List.length_cons] at h
      omega
  · intro args h
    rcases args with _ | ⟨a, _ | ⟨b, t⟩⟩
    · rfl
    · rfl
    · simp only [List.length_cons] at h
      omega
  · intro args h
    rcases args with _ | ⟨a, _ | ⟨b, _ | ⟨c, _ | ⟨e, t⟩⟩⟩⟩
    · rfl
    · rfl
    · rfl
    · rfl
    · simp only [List.length_cons] at h
      omega
  · intro args h
    rcases args with _ | ⟨a, _ | ⟨b, _ | ⟨c, _ | ⟨e, t⟩⟩⟩⟩
    · rfl
    · rfl
    · rfl
    · rfl
    · simp only [List.length_cons] at h
      omega
  · intro args h
    rcases args with _ | ⟨a, _ | ⟨b, _ | ⟨c, _ | ⟨e, t⟩⟩⟩⟩
    · rfl
    · rfl
    · rfl
    · rfl
    · simp only [List.length_cons] at h
      omega
  · rfl
  · intro args
    rfl
  · rfl
  · rfl
  · intro k f sv hk hlive
    rw [Redis.execute, execute_hget, Redis.cmd_hget, cleanup_key_live hlive]
    simp only [hk]

/-- Witness for `c6_arity_and_type_errors`: `SET` with no arguments and
`HGET` on a string-typed key. -/
theorem c6_arity_and_type_errors_witness :
    Redis.execute_inner 0 { Redis.empty with store := [(bs "k", Value.str (bs "v"))] } [bs "SET"] true
      = (.Error (bs "ERR wrong number of arguments"), { Redis.empty with store := [(bs "k", Value.str (bs "v"))] })
    ∧ (Redis.execute 0 { Redis.empty with store := [(bs "k", Value.str (bs "v"))] }
        [bs "HGET", bs "k", bs "f"]).1 = .Bulk none := by
  obtain ⟨h1, -, -, -, -, -, -, -, -, -, -, -, -, -, -, -, -, -, -, -, -, hh⟩ :=
    c6_arity_and_type_errors 0 { Redis.empty with store := [(bs "k", Value.str (bs "v"))] } true
  exact ⟨h1 [] (by decide),
    hh (bs "k") (bs "f") (bs "v") rfl (fun t ht => by simp [Redis.empty, lookupA] at ht)⟩

/-! ### State invariants through `execute_inner` (C3 machinery) -/

theorem log_aof (s : Redis) (cmd : List Bytes) :
    (s.log cmd).aof = s.aof.map (fun L => L ++ logBytes cmd) := by
  cases h : s.aof with
  | none => simp [Redis.log, h]
  | some L => simp [Redis.log, h]

theorem log_if_aof (s s' : Redis) (cmd : List Bytes) (b : Bool) (h : s'.aof = s.aof) :
    ((if b then s'.log cmd else s') : Redis).aof = s.aof
    ∨ ((if b then s'.log cmd else s') : Redis).aof = (s.log cmd).aof := by
  cases b
  · exact Or.inl (by simpa using h)
  · refine Or.inr ?_
    rw [if_pos rfl, log_aof, log_aof, h]

theorem cleanup_key_aof (now : Nat) {s : Redis} (k : Bytes) :
    (s.cleanup_key now k).aof = s.aof := by
  cases hx : lookupA s.expires k with
  | none => rw [cleanup_key_noexp hx]
  | some t =>
    by_cases ht : t ≤ now
    · rw [cleanup_key_expired hx ht]
    · rw [cleanup_key_live (fun u hu => by rw [hx] at hu; injection hu with hh; omega)]

theorem cleanup_key_expires_nodup (now : Nat) {s : Redis} (k : Bytes)
    (h : NodupKeys s.expires) : NodupKeys (s.cleanup_key now k).expires := by
  cases hx : lookupA s.expires k with
  | none => rw [cleanup_key_noexp hx]; exact h
  | some t =>
    by_cases ht : t ≤ now
    · rw [cleanup_key_expired hx ht]
      exact NodupKeys_removeA _ h
    · rw [cleanup_key_live (fun u hu => by rw [hx] at hu; injection hu with hh; omega)]
      exact h

theorem compact_expires (s : Redis) : s.compact.expires = s.expires := by
  cases h : s.aof <;> simp [Redis.compact, h]

theorem delLoop_aof (now : Nat) : ∀ (ks : List Bytes) (s : Redis),
    (Redis.delLoop now s ks).2.aof = s.aof := by
  intro ks
  induction ks with
  | nil => intro s; rfl
  | cons k ks ih =>
    intro s
    by_cases hx : (lookupA (s.cleanup_key now k).store k).isSome = true
    · have hstep : Redis.delLoop now s (k :: ks)
          = ((Redis.delLoop now { s.cleanup_key now k with
                store := removeA (s.cleanup_key now k).store k,
                expires := removeA (s.cleanup_key now k).expires k } ks).1 + 1,
             (Redis.delLoop now { s.cleanup_key now k with
                store := removeA (s.cleanup_key now k).store k,
                expires := removeA (s.cleanup_key now k).expires k } ks).2) := by
        simp only [Redis.delLoop, hx, if_true]
      rw [hstep]
      exact (ih _).trans (cleanup_key_aof now k)
    · have hstep : Redis.delLoop now s (k :: ks)
          = Redis.delLoop now (s.cleanup_key now k) ks := by
        simp only [Redis.delLoop, hx, if_false, Bool.false_eq_true]
      rw [hstep]
      exact (ih _).trans (cleanup_key_aof now k)

theorem delLoop_expires_nodup (now : Nat) : ∀ (ks : List Bytes) (s : Redis),
    NodupKeys s.expires → NodupKeys (Redis.delLoop now s ks).2.expires := by
  intro ks
  induction ks with
  | nil => intro s h; exact h
  | cons k ks ih =>
    intro s h
    by_cases hx : (lookupA (s.cleanup_key now k).store k).isSome = true
    · have hstep : Redis.delLoop now s (k :: ks)
          = ((Redis.delLoop now { s.cleanup_key now k with
                store := removeA (s.cleanup_key now k).store k,
                expires := removeA (s.cleanup_key now k).expires k } ks).1 + 1,
             (Redis.delLoop now { s.cleanup_key now k with
                store := removeA (s.cleanup_key now k).store k,
                expires := removeA (s.cleanup_key now k).expires k } ks).2) := by
        simp only [Redis.delLoop, hx, if_true]
      rw [hstep]
      exact ih _ (NodupKeys_removeA _ (cleanup_key_expires_nodup now k h))
    · have hstep : Redis.delLoop now s (k :: ks)
          = Redis.delLoop now (s.cleanup_key now k) ks := by
        simp only [Redis.delLoop, hx, if_false, Bool.false_eq_true]
      rw [hstep]
      exact ih _ (cleanup_key_expires_nodup now k h)

theorem existsLoop_aof (now : Nat) : ∀ (ks : List Bytes) (s : Redis),
    (Redis.existsLoop now s ks).2.aof = s.aof := by
  intro ks
  induction ks with
  | nil => intro s; rfl
  | cons k ks ih =>
    intro s
    by_cases hx : (lookupA (s.cleanup_key now k).store k).isSome = true
    · have hstep : Redis.existsLoop now s (k :: ks)
          = ((Redis.existsLoop now (s.cleanup_key now k) ks).1 + 1,
             (Redis.existsLoop now (s.cleanup_key now k) ks).2) := by
        simp only [Redis.existsLoop, hx, if_true]
      rw [hstep]
      exact (ih _).trans (cleanup_key_aof now k)
    · have hstep : Redis.existsLoop now s (k :: ks)
          = Redis.existsLoop now (s.cleanup_key now k) ks := by
        simp only [Redis.existsLoop, hx, if_false, Bool.false_eq_true]
      rw [hstep]
      exact (ih _).trans (cleanup_key_aof now k)

theorem existsLoop_expires_nodup (now : Nat) : ∀ (ks : List Bytes) (s : Redis),
    NodupKeys s.expires → NodupKeys (Redis.existsLoop now s ks).2.expires := by
  intro ks
  induction ks with
  | nil => intro s h; exact h
  | cons k ks ih =>
    intro s h
    by_cases hx : (lookupA (s.cleanup_key now k).store k).isSome = true
    · have hstep : Redis.existsLoop now s (k :: ks)
          = ((Redis.existsLoop now (s.cleanup_key now k) ks).1 + 1,
             (Redis.existsLoop now (s.cleanup_key now k) ks).2) := by
        simp only [Redis.existsLoop, hx, if_true]
      rw [hstep]
      exact ih _ (cleanup_key_expires_nodup now k h)
    · have hstep : Redis.existsLoop now s (k :: ks)
          = Redis.existsLoop now (s.cleanup_key now k) ks := by
        simp only [Redis.existsLoop, hx, if_false, Bool.false_eq_true]
      rw [hstep]
      exact ih _ (cleanup_key_expires_nodup now k h)

theorem nodup_log_if_expires (s1 : Redis) (cmd : List Bytes) (b : Bool)
    (h : NodupKeys s1.expires) :
    NodupKeys ((if b then s1.log cmd else s1) : Redis).expires := by
  rw [log_if_expires]
  exact h

theorem cmd_set_expires_nodup (s : Redis) (cmd args : List Bytes) (lg : Bool)
    (h : NodupKeys s.expires) : NodupKeys (Redis.cmd_set s cmd args lg).2.expires := by
  rcases args with _ | ⟨k, _ | ⟨v, t⟩⟩
  · exact h
  · exact h
  · exact nodup_log_if_expires _ cmd lg (NodupKeys_removeA _ h)

theorem cmd_get_expires_nodup (now : Nat) (s : Redis) (args : List Bytes)
    (h : NodupKeys s.expires) : NodupKeys (Redis.cmd_get now s args).2.expires := by
  rcases args with _ | ⟨k, t⟩
  · exact h
  · simp only [Redis.cmd_get]
    split <;> exact cleanup_key_expires_nodup now k h

theorem cmd_del_expires_nodup (now : Nat) (s : Redis) (cmd args : List Bytes) (lg : Bool)
    (h : NodupKeys s.expires) : NodupKeys (Redis.cmd_del now s cmd args lg).2.expires :=
  nodup_log_if_expires _ cmd lg (delLoop_expires_nodup now args s h)

theorem cmd_exists_expires_nodup (now : Nat) (s : Redis) (args : List Bytes)
    (h : NodupKeys s.expires) : NodupKeys (Redis.cmd_exists now s args).2.expires :=
  existsLoop_expires_nodup now args s h

theorem cmd_hset_expires_nodup (now : Nat) (s : Redis) (cmd args : List Bytes) (lg : Bool)
    (h : NodupKeys s.expires) : NodupKeys (Redis.cmd_hset now s cmd args lg).2.expires := by
  rcases args with _ | ⟨k, _ | ⟨f, _ | ⟨v, t⟩⟩⟩
  · exact h
  · exact h
  · exact h
  · exact nodup_log_if_expires _ cmd lg (cleanup_key_expires_nodup now k h)

theorem cmd_hget_expires_nodup (now : Nat) (s : Redis) (args : List Bytes)
    (h : NodupKeys s.expires) : NodupKeys (Redis.cmd_hget now s args).2.expires := by
  rcases args with _ | ⟨k, _ | ⟨f, t⟩⟩
  · exact h
  · exact h
  · simp only [Redis.cmd_hget]
    split <;> (try split) <;> exact cleanup_key_expires_nodup now k h

theorem cmd_hdel_expires_nodup (now : Nat) (s : Redis) (cmd args : List Bytes) (lg : Bool)
    (h : NodupKeys s.expires) : NodupKeys (Redis.cmd_hdel now s cmd args lg).2.expires := by
  rcases args with _ | ⟨k, _ | ⟨f, t⟩⟩
  · exact h
  · exact h
  · exact nodup_log_if_expires _ cmd lg (cleanup_key_expires_nodup now k h)

theorem cmd_hgetall_expires_nodup (now : Nat) (s : Redis) (args : List Bytes)
    (h : NodupKeys s.expires) : NodupKeys (Redis.cmd_hgetall now s args).2.expires := by
  rcases args with _ | ⟨k, t⟩
  · exact h
  · simp only [Redis.cmd_hgetall]
    split <;> exact cleanup_key_expires_nodup now k h

theorem cmd_sadd_expires_nodup (now : Nat) (s : Redis) (cmd args : List Bytes) (lg : Bool)
    (h : NodupKeys s.expires) : NodupKeys (Redis.cmd_sadd now s cmd args lg).2.expires := by
  rcases args with _ | ⟨k, _ | ⟨m, ms⟩⟩
  · exact h
  · exact h
  · exact nodup_log_if_expires _ cmd lg (cleanup_key_expires_nodup now k h)

theorem cmd_srem_expires_nodup (now : Nat) (s : Redis) (cmd args : List Bytes) (lg : Bool)
    (h : NodupKeys s.expires) : NodupKeys (Redis.cmd_srem now s cmd args lg).2.expires := by
  rcases args with _ | ⟨k, _ | ⟨m, ms⟩⟩
  · exact h
  · exact h
  · exact nodup_log_if_expires _ cmd lg (cleanup_key_expires_nodup now k h)

theorem cmd_smembers_expires_nodup (now : Nat) (s : Redis) (args : List Bytes)
    (h : NodupKeys s.expires) : NodupKeys (Redis.cmd_smembers now s args).2.expires := by
  rcases args with _ | ⟨k, t⟩
  · exact h
  · simp only [Redis.cmd_smembers]
    split <;> exact cleanup_key_expires_nodup now k h

theorem cmd_expire_expires_nodup (now : Nat) (s : Redis) (cmd args : List Bytes) (lg : Bool)
    (h : NodupKeys s.expires) : NodupKeys (Redis.cmd_expire now s cmd args lg).2.expires := by
  rcases args with _ | ⟨k, _ | ⟨d, t⟩⟩
  · exact h
  · exact h
  · by_cases hx : (lookupA (s.cleanup_key now k).store k).isSome = true
    · simp only [Redis.cmd_expire, hx, if_true]
      exact nodup_log_if_expires _ cmd lg
        (NodupKeys_insertA _ _ (cleanup_key_expires_nodup now k h))
    · simp only [Redis.cmd_expire, hx, Bool.false_eq_true, if_false]
      exact cleanup_key_expires_nodup now k h

theorem cmd_pexpire_expires_nodup (now : Nat) (s : Redis) (cmd args : List Bytes) (lg : Bool)
    (h : NodupKeys s.expires) : NodupKeys (Redis.cmd_pexpire now s cmd args lg).2.expires := by
  rcases args with _ | ⟨k, _ | ⟨d, t⟩⟩
  · exact h
  · exact h
  · by_cases hx : (lookupA (s.cleanup_key now k).store k).isSome = true
    · simp only [Redis.cmd_pexpire, hx, if_true]
      exact nodup_log_if_expires _ cmd lg
        (NodupKeys_insertA _ _ (cleanup_key_expires_nodup now k h))
    · simp only [Redis.cmd_pexpire, hx, Bool.false_eq_true, if_false]
      exact cleanup_key_expires_nodup now k h

theorem cmd_ttl_expires_nodup (now : Nat) (s : Redis) (args : List Bytes)
    (h : NodupKeys s.expires) : NodupKeys (Redis.cmd_ttl now s args).2.expires := by
  rcases args with _ | ⟨k, t⟩
  · exact h
  · simp only [Redis.cmd_ttl]
    split <;> (try split) <;> exact cleanup_key_expires_nodup now k h

theorem cmd_persist_expires_nodup (now : Nat) (s : Redis) (cmd args : List Bytes) (lg : Bool)
    (h : NodupKeys s.expires) : NodupKeys (Redis.cmd_persist now s cmd args lg).2.expires := by
  rcases args with _ | ⟨k, t⟩
  · exact h
  · exact nodup_log_if_expires _ cmd _
      (NodupKeys_removeA _ (cleanup_key_expires_nodup now k h))

theorem cmd_publish_expires_nodup (s : Redis) (args : List Bytes)
    (h : NodupKeys s.expires) : NodupKeys (Redis.cmd_publish s args).2.expires := by
  rcases args with _ | ⟨ch, _ | ⟨m, t⟩⟩
  · exact h
  · exact h
  · exact h

theorem cmd_vec_create_expires_nodup (s : Redis) (cmd args : List Bytes) (lg : Bool)
    (h : NodupKeys s.expires) : NodupKeys (Redis.cmd_vec_create s cmd args lg).2.expires := by
  rcases args with _ | ⟨k, _ | ⟨a2, _ | ⟨a3, _ | ⟨a4, t⟩⟩⟩⟩
  · exact h
  · exact h
  · exact h
  · exact h
  · by_cases hc : (!lg && (lookupA s.vectors k).isSome) = true
    · simp only [Redis.cmd_vec_create, hc, if_true]
      exact h
    · simp only [Redis.cmd_vec_create, hc, Bool.false_eq_true, if_false]
      exact nodup_log_if_expires _ cmd lg h

theorem cmd_vec_add_expires_nodup (s : Redis) (cmd args : List Bytes) (lg : Bool)
    (h : NodupKeys s.expires) : NodupKeys (Redis.cmd_vec_add s cmd args lg).2.expires := by
  rcases args with _ | ⟨k, _ | ⟨a2, _ | ⟨a3, _ | ⟨a4, t⟩⟩⟩⟩
  · exact h
  · exact h
  · exact h
  · exact h
  · simp only [Redis.cmd_vec_add]
    split
    · split
      · exact nodup_log_if_expires _ cmd lg h
      · exact h
    · exact h

theorem cmd_vec_search_expires_nodup (s : Redis) (args : List Bytes)
    (h : NodupKeys s.expires) : NodupKeys (Redis.cmd_vec_search s args).2.expires := by
  rcases args with _ | ⟨k, _ | ⟨a2, _ | ⟨a3, _ | ⟨a4, t⟩⟩⟩⟩
  · exact h
  · exact h
  · exact h
  · exact h
  · simp only [Redis.cmd_vec_search]
    split
    · split
      · exact h
      · exact h
    · exact h

/-- Every command preserves key uniqueness of the TTL table. -/
theorem execute_inner_expires_nodup (now : Nat) (s : Redis) (cmd : List Bytes) (lg : Bool)
    (h : NodupKeys s.expires) : NodupKeys (Redis.execute_inner now s cmd lg).2.expires := by
  cases cmd with
  | nil => exact h
  | cons c args =>
    simp only [Redis.execute_inner]
    by_cases h1 : asciiUpper c = bs "SET"
    · rw [if_pos h1]
      exact cmd_set_expires_nodup s (c :: args) args lg h
    rw [if_neg h1]
    by_cases h2 : asciiUpper c = bs "GET"
    · rw [if_pos h2]
      exact cmd_get_expires_nodup now s args h
    rw [if_neg h2]
    by_cases h3 : asciiUpper c = bs "DEL"
    · rw [if_pos h3]
      exact cmd_del_expires_nodup now s (c :: args) args lg h
    rw [if_neg h3]
    by_cases h4 : asciiUpper c = bs "EXISTS"
    · rw [if_pos h4]
      exact cmd_exists_expires_nodup now s args h
    rw [if_neg h4]
    by_cases h5 : asciiUpper c = bs "HSET"
    · rw [if_pos h5]
      exact cmd_hset_expires_nodup now s (c :: args) args lg h
    rw [if_neg h5]
    by_cases h6 : asciiUpper c = bs "HGET"
    · rw [if_pos h6]
      exact cmd_hget_expires_nodup now s args h
    rw [if_neg h6]
    by_cases h7 : asciiUpper c = bs "HDEL"
    · rw [if_pos h7]
      exact cmd_hdel_expires_nodup now s (c :: args) args lg h
    rw [if_neg h7]
    by_cases h8 : asciiUpper c = bs "HGETALL"
    · rw [if_pos h8]
      exact cmd_hgetall_expires_nodup now s args h
    rw [if_neg h8]
    by_cases h9 : asciiUpper c = bs "SADD"
    · rw [if_pos h9]
      exact cmd_sadd_expires_nodup now s (c :: args) args lg h
    rw [if_neg h9]
    by_cases h10 : asciiUpper c = bs "SREM"
    · rw [if_pos h10]
      exact cmd_srem_expires_nodup now s (c :: args) args lg h
    rw [if_neg h10]
    by_cases h11 : asciiUpper c = bs "SMEMBERS"
    · rw [if_pos h11]
      exact cmd_smembers_expires_nodup now s args h
    rw [if_neg h11]
    by_cases h12 : asciiUpper c = bs "EXPIRE"
    · rw [if_pos h12]
      exact cmd_expire_expires_nodup now s (c :: args) args lg h
    rw [if_neg h12]
    by_cases h13 : asciiUpper c = bs "PEXPIRE"
    · rw [if_pos h13]
      exact cmd_pexpire_expires_nodup now s (c :: args) args lg h
    rw [if_neg h13]
    by_cases h14 : asciiUpper c = bs "TTL"
    · rw [if_pos h14]
      exact cmd_ttl_expires_nodup now s args h
    rw [if_neg h14]
    by_cases h15 : asciiUpper c = bs "PERSIST"
    · rw [if_pos h15]
      exact cmd_persist_expires_nodup now s (c :: args) args lg h
    rw [if_neg h15]
    by_cases h16 : asciiUpper c = bs "PUBLISH"
    · rw [if_pos h16]
      exact cmd_publish_expires_nodup s args h
    rw [if_neg h16]
    by_cases h17 : asciiUpper c = bs "VEC.CREATE"
    · rw [if_pos h17]
      exact cmd_vec_create_expires_nodup s (c :: args) args lg h
    rw [if_neg h17]
    by_cases h18 : asciiUpper c = bs "VEC.ADD"
    · rw [if_pos h18]
      exact cmd_vec_add_expires_nodup s (c :: args) args lg h
    rw [if_neg h18]
    by_cases h19 : asciiUpper c = bs "VEC.SEARCH"
    · rw [if_pos h19]
      exact cmd_vec_search_expires_nodup s args h
    rw [if_neg h19]
    by_cases h20 : asciiUpper c = bs "COMPACT"
    · rw [if_pos h20]
      show NodupKeys s.compact.expires
      rw [compact_expires]
      exact h
    rw [if_neg h20]
    exact h


theorem cmd_set_aof (s : Redis) (cmd args : List Bytes) (lg : Bool) :
    (Redis.cmd_set s cmd args lg).2.aof = s.aof
    ∨ (Redis.cmd_set s cmd args lg).2.aof = (s.log cmd).aof := by
  rcases args with _ | ⟨k, _ | ⟨v, t⟩⟩
  · exact Or.inl rfl
  · exact Or.inl rfl
  · exact log_if_aof s _ cmd lg rfl

theorem cmd_get_aof (now : Nat) (s : Redis) (args : List Bytes) :
    (Redis.cmd_get now s args).2.aof = s.aof := by
  rcases args with _ | ⟨k, t⟩
  · rfl
  · simp only [Redis.cmd_get]
    split <;> exact cleanup_key_aof now k

theorem cmd_del_aof (now : Nat) (s : Redis) (cmd args : List Bytes) (lg : Bool) :
    (Redis.cmd_del now s cmd args lg).2.aof = s.aof
    ∨ (Redis.cmd_del now s cmd args lg).2.aof = (s.log cmd).aof :=
  log_if_aof s _ cmd lg (delLoop_aof now args s)

theorem cmd_exists_aof (now : Nat) (s : Redis) (args : List Bytes) :
    (Redis.cmd_exists now s args).2.aof = s.aof :=
  existsLoop_aof now args s

theorem cmd_hset_aof (now : Nat) (s : Redis) (cmd args : List Bytes) (lg : Bool) :
    (Redis.cmd_hset now s cmd args lg).2.aof = s.aof
    ∨ (Redis.cmd_hset now s cmd args lg).2.aof = (s.log cmd).aof := by
  rcases args with _ | ⟨k, _ | ⟨f, _ | ⟨v, t⟩⟩⟩
  · exact Or.inl rfl
  · exact Or.inl rfl
  · exact Or.inl rfl
  · exact log_if_aof s _ cmd lg (cleanup_key_aof now k)

theorem cmd_hget_aof (now : Nat) (s : Redis) (args : List Bytes) :
    (Redis.cmd_hget now s args).2.aof = s.aof := by
  rcases args with _ | ⟨k, _ | ⟨f, t⟩⟩
  · rfl
  · rfl
  · simp only [Redis.cmd_hget]
    split <;> (try split) <;> exact cleanup_key_aof now k

theorem cmd_hdel_aof (now : Nat) (s : Redis) (cmd args : List Bytes) (lg : Bool) :
    (Redis.cmd_hdel now s cmd args lg).2.aof = s.aof
    ∨ (Redis.cmd_hdel now s cmd args lg).2.aof = (s.log cmd).aof := by
  rcases args with _ | ⟨k, _ | ⟨f, t⟩⟩
  · exact Or.inl rfl
  · exact Or.inl rfl
  · exact log_if_aof s _ cmd lg (cleanup_key_aof now k)

theorem cmd_hgetall_aof (now : Nat) (s : Redis) (args : List Bytes) :
    (Redis.cmd_hgetall now s args).2.aof = s.aof := by
  rcases args with _ | ⟨k, t⟩
  · rfl
  · simp only [Redis.cmd_hgetall]
    split <;> exact cleanup_key_aof now k

theorem cmd_sadd_aof (now : Nat) (s : Redis) (cmd args : List Bytes) (lg : Bool) :
    (Redis.cmd_sadd now s cmd args lg).2.aof = s.aof
    ∨ (Redis.cmd_sadd now s cmd args lg).2.aof = (s.log cmd).aof := by
  rcases args with _ | ⟨k, _ | ⟨m, ms⟩⟩
  · exact Or.inl rfl
  · exact Or.inl rfl
  · exact log_if_aof s _ cmd lg (cleanup_key_aof now k)

theorem cmd_srem_aof (now : Nat) (s : Redis) (cmd args : List Bytes) (lg : Bool) :
    (Redis.cmd_srem now s cmd args lg).2.aof = s.aof
    ∨ (Redis.cmd_srem now s cmd args lg).2.aof = (s.log cmd).aof := by
  rcases args with _ | ⟨k, _ | ⟨m, ms⟩⟩
  · exact Or.inl rfl
  · exact Or.inl rfl
  · exact log_if_aof s _ cmd lg (cleanup_key_aof now k)

theorem cmd_smembers_aof (now : Nat) (s : Redis) (args : List Bytes) :
    (Redis.cmd_smembers now s args).2.aof = s.aof := by
  rcases args with _ | ⟨k, t⟩
  · rfl
  · simp only [Redis.cmd_smembers]
    split <;> exact cleanup_key_aof now k

theorem cmd_expire_aof (now : Nat) (s : Redis) (cmd args : List Bytes) (lg : Bool) :
    (Redis.cmd_expire now s cmd args lg).2.aof = s.aof
    ∨ (Redis.cmd_expire now s cmd args lg).2.aof = (s.log cmd).aof := by
  rcases args with _ | ⟨k, _ | ⟨d, t⟩⟩
  · exact Or.inl rfl
  · exact Or.inl rfl
  · by_cases hx : (lookupA (s.cleanup_key now k).store k).isSome = true
    · simp only [Redis.cmd_expire, hx, if_true]
      exact log_if_aof s _ cmd lg (cleanup_key_aof now k)
    · simp only [Redis.cmd_expire, hx, Bool.false_eq_true, if_false]
      exact Or.inl (cleanup_key_aof now k)

theorem cmd_pexpire_aof (now : Nat) (s : Redis) (cmd args : List Bytes) (lg : Bool) :
    (Redis.cmd_pexpire now s cmd args lg).2.aof = s.aof
    ∨ (Redis.cmd_pexpire now s cmd args lg).2.aof = (s.log cmd).aof := by
  rcases args with _ | ⟨k, _ | ⟨d, t⟩⟩
  · exact Or.inl rfl
  · exact Or.inl rfl
  · by_cases hx : (lookupA (s.cleanup_key now k).store k).isSome = true
    · simp only [Redis.cmd_pexpire, hx, if_true]
      exact log_if_aof s _ cmd lg (cleanup_key_aof now k)
    · simp only [Redis.cmd_pexpire, hx, Bool.false_eq_true, if_false]
      exact Or.inl (cleanup_key_aof now k)

theorem cmd_ttl_aof (now : Nat) (s : Redis) (args : List Bytes) :
    (Redis.cmd_ttl now s args).2.aof = s.aof := by
  rcases args with _ | ⟨k, t⟩
  · rfl
  · simp only [Redis.cmd_ttl]
    split <;> (try split) <;> exact cleanup_key_aof now k

theorem cmd_persist_aof (now : Nat) (s : Redis) (cmd args : List Bytes) (lg : Bool) :
    (Redis.cmd_persist now s cmd args lg).2.aof = s.aof
    ∨ (Redis.cmd_persist now s cmd args lg).2.aof = (s.log cmd).aof := by
  rcases args with _ | ⟨k, t⟩
  · exact Or.inl rfl
  · exact log_if_aof s _ cmd _ (cleanup_key_aof now k)

theorem cmd_publish_aof (s : Redis) (args : List Bytes) :
    (Redis.cmd_publish s args).2.aof = s.aof := by
  rcases args with _ | ⟨ch, _ | ⟨m, t⟩⟩
  · rfl
  · rfl
  · rfl

theorem cmd_vec_create_aof (s : Redis) (cmd args : List Bytes) (lg : Bool) :
    (Redis.cmd_vec_create s cmd args lg).2.aof = s.aof
    ∨ (Redis.cmd_vec_create s cmd args lg).2.aof = (s.log cmd).aof := by
  rcases args with _ | ⟨k, _ | ⟨a2, _ | ⟨a3, _ | ⟨a4, t⟩⟩⟩⟩
  · exact Or.inl rfl
  · exact Or.inl rfl
  · exact Or.inl rfl
  · exact Or.inl rfl
  · by_cases hc : (!lg && (lookupA s.vectors k).isSome) = true
    · simp only [Redis.cmd_vec_create, hc, if_true]
      exact Or.inl trivial
    · simp only [Redis.cmd_vec_create, hc, Bool.false_eq_true, if_false]
      exact log_if_aof s _ cmd lg rfl

theorem cmd_vec_add_aof (s : Redis) (cmd args : List Bytes) (lg : Bool) :
    (Redis.cmd_vec_add s cmd args lg).2.aof = s.aof
    ∨ (Redis.cmd_vec_add s cmd args lg).2.aof = (s.log cmd).aof := by
  rcases args with _ | ⟨k, _ | ⟨a2, _ | ⟨a3, _ | ⟨a4, t⟩⟩⟩⟩
  · exact Or.inl rfl
  · exact Or.inl rfl
  · exact Or.inl rfl
  · exact Or.inl rfl
  · simp only [Redis.cmd_vec_add]
    split
    · split
      · exact log_if_aof s _ cmd lg rfl
      · exact Or.inl rfl
    · exact Or.inl rfl

theorem cmd_vec_search_aof (s : Redis) (args : List Bytes) :
    (Redis.cmd_vec_search s args).2.aof = s.aof := by
  rcases args with _ | ⟨k, _ | ⟨a2, _ | ⟨a3, _ | ⟨a4, t⟩⟩⟩⟩
  · rfl
  · rfl
  · rfl
  · rfl
  · simp only [Redis.cmd_vec_search]
    split
    · split
      · rfl
      · rfl
    · rfl

/-- Every non-`COMPACT` command leaves the log untouched or appends
exactly its own frame. -/
theorem execute_inner_aof (now : Nat) (s : Redis) (c : Bytes) (args : List Bytes) (lg : Bool)
    (hc : asciiUpper c ≠ bs "COMPACT") :
    (Redis.execute_inner now s (c :: args) lg).2.aof = s.aof
    ∨ (Redis.execute_inner now s (c :: args) lg).2.aof = (s.log (c :: args)).aof := by
  simp only [Redis.execute_inner]
  by_cases h1 : asciiUpper c = bs "SET"
  · rw [if_pos h1]
    exact cmd_set_aof s (c :: args) args lg
  rw [if_neg h1]
  by_cases h2 : asciiUpper c = bs "GET"
  · rw [if_pos h2]
    exact Or.inl (cmd_get_aof now s args)
  rw [if_neg h2]
  by_cases h3 : asciiUpper c = bs "DEL"
  · rw [if_pos h3]
    exact cmd_del_aof now s (c :: args) args lg
  rw [if_neg h3]
  by_cases h4 : asciiUpper c = bs "EXISTS"
  · rw [if_pos h4]
    exact Or.inl (cmd_exists_aof now s args)
  rw [if_neg h4]
  by_cases h5 : asciiUpper c = bs "HSET"
  · rw [if_pos h5]
    exact cmd_hset_aof now s (c :: args) args lg
  rw [if_neg h5]
  by_cases h6 : asciiUpper c = bs "HGET"
  · rw [if_pos h6]
    exact Or.inl (cmd_hget_aof now s args)
  rw [if_neg h6]
  by_cases h7 : asciiUpper c = bs "HDEL"
  · rw [if_pos h7]
    exact cmd_hdel_aof now s (c :: args) args lg
  rw [if_neg h7]
  by_cases h8 : asciiUpper c = bs "HGETALL"
  · rw [if_pos h8]
    exact Or.inl (cmd_hgetall_aof now s args)
  rw [if_neg h8]
  by_cases h9 : asciiUpper c = bs "SADD"
  · rw [if_pos h9]
    exact cmd_sadd_aof now s (c :: args) args lg
  rw [if_neg h9]
  by_cases h10 : asciiUpper c = bs "SREM"
  · rw [if_pos h10]
    exact cmd_srem_aof now s (c :: args) args lg
  rw [if_neg h10]
  by_cases h11 : asciiUpper c = bs "SMEMBERS"
  · rw [if_pos h11]
    exact Or.inl (cmd_smembers_aof now s args)
  rw [if_neg h11]
  by_cases h12 : asciiUpper c = bs "EXPIRE"
  · rw [if_pos h12]
    exact cmd_expire_aof now s (c :: args) args lg
  rw [if_neg h12]
  by_cases h13 : asciiUpper c = bs "PEXPIRE"
  · rw [if_pos h13]
    exact cmd_pexpire_aof now s (c :: args) args lg
  rw [if_neg h13]
  by_cases h14 : asciiUpper c = bs "TTL"
  · rw [if_pos h14]
    exact Or.inl (cmd_ttl_aof now s args)
  rw [if_neg h14]
  by_cases h15 : asciiUpper c = bs "PERSIST"
  · rw [if_pos h15]
    exact cmd_persist_aof now s (c :: args) args lg
  rw [if_neg h15]
  by_cases h16 : asciiUpper c = bs "PUBLISH"
  · rw [if_pos h16]
    exact Or.inl (cmd_publish_aof s args)
  rw [if_neg h16]
  by_cases h17 : asciiUpper c = bs "VEC.CREATE"
  · rw [if_pos h17]
    exact cmd_vec_create_aof s (c :: args) args lg
  rw [if_neg h17]
  by_cases h18 : asciiUpper c = bs "VEC.ADD"
  · rw [if_pos h18]
    exact cmd_vec_add_aof s (c :: args) args lg
  rw [if_neg h18]
  by_cases h19 : asciiUpper c = bs "VEC.SEARCH"
  · rw [if_pos h19]
    exact Or.inl (cmd_vec_search_aof s args)
  rw [if_neg h19]
  by_cases h20 : asciiUpper c = bs "COMPACT"
  · exact absurd h20 hc
  rw [if_neg h20]
  exact Or.inl rfl

/-! ### Replay of an encoded frame stream (C3 machinery) -/

theorem encodeList_append (xs ys : List Resp) :
    Resp.encodeList (xs ++ ys) = Resp.encodeList xs ++ Resp.encodeList ys := by
  induction xs with
  | nil => simp [Resp.encodeList]
  | cons x xs ih => simp [Resp.encodeList, ih]

theorem parse_encode_head {m : Resp} (h : Resp.wf m = true) (rest : List Nat) :
    Resp.parse (Resp.encode m ++ rest) = .ok (m, (Resp.encode m).length) := by
  rw [Resp.parse]
  refine parseF_encode_strong (Resp.encode m).length m le_rfl h rest _ ?_
  simp only [List.length_append]
  omega

theorem parseStreamF_encodeList :
    ∀ (fs : List Resp) (fuel : Nat), Resp.wfList fs = true →
      (Resp.encodeList fs).length ≤ fuel →
      parseStreamF fuel (Resp.encodeList fs) = .ok fs := by
  intro fs
  induction fs with
  | nil =>
    intro fuel _ _
    rw [show Resp.encodeList [] = [] from rfl]
    cases fuel <;> rfl
  | cons f rest ih =>
    intro fuel hwf hle
    rw [Resp.wfList, Bool.and_eq_true] at hwf
    have hpos := encode_length_pos f
    rw [show Resp.encodeList (f :: rest) = Resp.encode f ++ Resp.encodeList rest from rfl]
      at hle ⊢
    obtain ⟨fl, rfl⟩ : ∃ fl, fuel = fl + 1 :=
      ⟨fuel - 1, by simp only [List.length_append] at hle; omega⟩
    obtain ⟨b0, tl, hin⟩ : ∃ b0 tl, Resp.encode f ++ Resp.encodeList rest = b0 :: tl := by
      cases hE : Resp.encode f with
      | nil => rw [hE] at hpos; simp at hpos
      | cons a t => exact ⟨a, t ++ Resp.encodeList rest, rfl⟩
    have hdrop : (Resp.encode f ++ Resp.encodeList rest).drop (Resp.encode f).length
        = Resp.encodeList rest := List.drop_left _ _
    have hrec : parseStreamF fl (Resp.encodeList rest) = .ok rest :=
      ih fl hwf.2 (by simp only [List.length_append] at hle; omega)
    rw [hin]
    rw [show parseStreamF (fl + 1) (b0 :: tl)
        = (match Resp.parse (b0 :: tl) with
           | .ok (r, used) =>
             match parseStreamF fl ((b0 :: tl).drop used) with
             | .ok rs => .ok (r :: rs)
             | .error e => .error e
           | .error e => .error e) from rfl]
    rw [← hin]
    simp only [parse_encode_head hwf.1, hdrop, hrec]

theorem parseStream_encodeList {fs : List Resp} (h : Resp.wfList fs = true) :
    Resp.parseStream (Resp.encodeList fs) = .ok fs :=
  parseStreamF_encodeList fs _ h le_rfl

/-- Well-formedness of an argv for logging and replay: UTF-8 payloads
(so `resp_to_string` is faithful) within the codec's length bounds. -/
def goodArgv (c : List Bytes) : Prop :=
  (∀ b ∈ c, isValidUtf8 b = true ∧ b.length < 2 ^ 63) ∧ c.length < 2 ^ 63

theorem wfList_bulk {c : List Bytes} (h : ∀ b ∈ c, b.length < 2 ^ 63) :
    Resp.wfList (c.map (fun b => Resp.Bulk (some b))) = true := by
  induction c with
  | nil => rfl
  | cons x xs ih =>
    rw [List.map_cons, Resp.wfList, Bool.and_eq_true]
    refine ⟨?_, ih (fun b hb => h b (by simp [hb]))⟩
    rw [Resp.wf, decide_eq_true_eq]
    exact h x (by simp)

theorem wf_cmdFrame {c : List Bytes} (hlen : c.length < 2 ^ 63)
    (h : ∀ b ∈ c, b.length < 2 ^ 63) : Resp.wf (cmdFrame c) = true := by
  rw [cmdFrame, Resp.wf, Bool.and_eq_true]
  refine ⟨?_, wfList_bulk h⟩
  rw [decide_eq_true_eq, List.length_map]
  exact hlen

theorem wfList_map_cmdFrame {gs : List (List Bytes)} (h : ∀ g ∈ gs, goodArgv g) :
    Resp.wfList (gs.map cmdFrame) = true := by
  induction gs with
  | nil => rfl
  | cons g gs ih =>
    rw [List.map_cons, Resp.wfList, Bool.and_eq_true]
    have hg := h g (by simp)
    exact ⟨wf_cmdFrame hg.2 (fun b hb => (hg.1 b hb).2),
      ih (fun g' hg' => h g' (by simp [hg']))⟩

theorem respToBytes_bulk_map {c : List Bytes} (h : ∀ b ∈ c, isValidUtf8 b = true) :
    (c.map (fun b => Resp.Bulk (some b))).map respToBytes = c := by
  induction c with
  | nil => rfl
  | cons x xs ih =>
    rw [List.map_cons, List.map_cons, ih (fun b hb => h b (by simp [hb]))]
    rw [show respToBytes (Resp.Bulk (some x)) = if isValidUtf8 x = true then x else []
      from rfl]
    rw [if_pos (h x (by simp))]

theorem filterMap_cmdFrames {gs : List (List Bytes)}
    (h : ∀ g ∈ gs, ∀ b ∈ g, isValidUtf8 b = true) :
    (gs.map cmdFrame).filterMap argvOfFrame = gs := by
  induction gs with
  | nil => rfl
  | cons g gs ih =>
    rw [List.map_cons, List.filterMap_cons]
    rw [show argvOfFrame (cmdFrame g)
        = some ((g.map (fun b => Resp.Bulk (some b))).map respToBytes) from rfl]
    rw [respToBytes_bulk_map (h g (by simp)), ih (fun g' hg' b hb => h g' (by simp [hg']) b hb)]

/-- Replay folds preserve key uniqueness of the TTL table. -/
theorem foldl_execute_expires_nodup (now : Nat) (lg : Bool) :
    ∀ (gl : List (List Bytes)) (st : Redis), NodupKeys st.expires →
      NodupKeys (gl.foldl (fun st c => (Redis.execute_inner now st c lg).2) st).expires := by
  intro gl
  induction gl with
  | nil => intro st h; exact h
  | cons g gl ih =>
    intro st h
    rw [List.foldl_cons]
    exact ih _ (execute_inner_expires_nodup now st g lg h)

/-! ### Claim C3: logging and replay -/

/-- C3: `Redis::log` appends exactly the Array-of-Bulk re-encoding of the
executed argv to the open log; and on a store opened with an initially
empty log, after any well-formed non-`COMPACT` traffic followed by
`SET foo bar`, a second store constructed against the resulting log
contents answers `GET foo` with bulk `"bar"`. -/
theorem c3_set_logged_and_replayed (now0 now1 now2 : Nat) (cs : List (List Bytes))
    (hgood : ∀ c ∈ cs, goodArgv c ∧ ∀ hd tl, c = hd :: tl → asciiUpper hd ≠ bs "COMPACT") :
    (∀ (st : Redis) (cmd : List Bytes) (L : Bytes), st.aof = some L →
      (st.log cmd).aof = some (L ++ (cmdFrame cmd).encode))
    ∧ (Redis.execute now2
        (Redis.new now2
          (Redis.execute now1
            (cs.foldl (fun st c => (Redis.execute now0 st c).2) (Redis.new now0 (some [])))
            [bs "SET", bs "foo", bs "bar"]).2.aof)
        [bs "GET", bs "foo"]).1 = .Bulk (some (bs "bar")) := by
  constructor
  · intro st cmd L hst
    simp [Redis.log, hst, logBytes]
  · have hINV : ∀ (cl : List (List Bytes)) (st : Redis),
        (∀ c ∈ cl, goodArgv c ∧ ∀ hd tl, c = hd :: tl → asciiUpper hd ≠ bs "COMPACT") →
        (∃ gs : List (List Bytes), (∀ g ∈ gs, goodArgv g)
          ∧ st.aof = some (Resp.encodeList (gs.map cmdFrame))) →
        ∃ gs : List (List Bytes), (∀ g ∈ gs, goodArgv g)
          ∧ (cl.foldl (fun st c => (Redis.execute now0 st c).2) st).aof
              = some (Resp.encodeList (gs.map cmdFrame)) := by
      intro cl
      induction cl with
      | nil => intro st _ hs; exact hs
      | cons c cl ih =>
        intro st hcs hs
        obtain ⟨gs, hgs, haof⟩ := hs
        rw [List.foldl_cons]
        refine ih _ (fun c' hc' => hcs c' (by simp [hc'])) ?_
        have hc := hcs c (by simp)
        rcases c with _ | ⟨ch, cargs⟩
        · exact ⟨gs, hgs, haof⟩
        · rcases execute_inner_aof now0 st ch cargs true (hc.2 ch cargs rfl) with hA | hA
          · exact ⟨gs, hgs, hA.trans haof⟩
          · refine ⟨gs ++ [ch :: cargs], ?_, ?_⟩
            · intro g hg
              rcases List.mem_append.mp hg with hg | hg
              · exact hgs g hg
              · rw [List.mem_singleton.mp hg]
                exact hc.1
            · rw [show (Redis.execute now0 st (ch :: cargs)).2.aof
                  = (Redis.execute_inner now0 st (ch :: cargs) true).2.aof from rfl, hA,
                log_aof, haof]
              simp [List.map_append, encodeList_append, Resp.encodeList, logBytes]
    obtain ⟨gs, hgs, haof1⟩ := hINV cs (Redis.new now0 (some [])) hgood ⟨[], by simp, rfl⟩
    set s1 := cs.foldl (fun st c => (Redis.execute now0 st c).2) (Redis.new now0 (some []))
      with hs1
    have hset := set_step now1 s1 (bs "foo") (bs "bar")
    have hs2 : (Redis.execute now1 s1 [bs "SET", bs "foo", bs "bar"]).2
        = Redis.log { s1 with store := insertA s1.store (bs "foo") (.str (bs "bar")), expires := removeA s1.expires (bs "foo") } (bs "SET" :: bs "foo" :: bs "bar" :: []) := by
      rw [hset]
    have hgsT : ∀ g ∈ gs ++ [[bs "SET", bs "foo", bs "bar"]], goodArgv g := by
      intro g hg
      rcases List.mem_append.mp hg with hg | hg
      · exact hgs g hg
      · rw [List.mem_singleton.mp hg]
        refine ⟨?_, by decide⟩
        intro b hb
        simp only [List.mem_cons, List.not_mem_nil, or_false] at hb
        rcases hb with rfl | rfl | rfl
        · exact ⟨by decide, by decide⟩
        · exact ⟨by decide, by decide⟩
        · exact ⟨by decide, by decide⟩
    have haof2 : (Redis.execute now1 s1 [bs "SET", bs "foo", bs "bar"]).2.aof
        = some (Resp.encodeList ((gs ++ [[bs "SET", bs "foo", bs "bar"]]).map cmdFrame)) := by
      rw [hs2, log_aof]
      show s1.aof.map _ = _
      rw [haof1]
      simp [List.map_append, encodeList_append, Resp.encodeList, logBytes]
    have hwfl : Resp.wfList ((gs ++ [[bs "SET", bs "foo", bs "bar"]]).map cmdFrame) = true :=
      wfList_map_cmdFrame hgsT
    have hparse := parseStream_encodeList hwfl
    have hfm := filterMap_cmdFrames (fun g hg b hb => ((hgsT g hg).1 b hb).1)
    have hnew : Redis.new now2
          (some (Resp.encodeList ((gs ++ [[bs "SET", bs "foo", bs "bar"]]).map cmdFrame)))
        = { ((gs ++ [[bs "SET", bs "foo", bs "bar"]]).foldl (fun st c => (Redis.execute_inner now2 st c false).2) Redis.empty) with aof := some (Resp.encodeList ((gs ++ [[bs "SET", bs "foo", bs "bar"]]).map cmdFrame)) } := by
      simp only [Redis.new, hparse, hfm]
    have hfold : (gs ++ [[bs "SET", bs "foo", bs "bar"]]).foldl
          (fun st c => (Redis.execute_inner now2 st c false).2) Redis.empty
        = { (gs.foldl (fun st c => (Redis.execute_inner now2 st c false).2) Redis.empty) with store := insertA (gs.foldl (fun st c => (Redis.execute_inner now2 st c false).2) Redis.empty).store (bs "foo") (.str (bs "bar")), expires := removeA (gs.foldl (fun st c => (Redis.execute_inner now2 st c false).2) Redis.empty).expires (bs "foo") } := by
      rw [List.foldl_append]
      rfl
    rw [haof2, hnew, hfold]
    set sprev := gs.foldl (fun st c => (Redis.execute_inner now2 st c false).2) Redis.empty
      with hsprev
    have hnd : NodupKeys sprev.expires :=
      foldl_execute_expires_nodup now2 false gs Redis.empty NodupKeys_nil
    refine get_live_str ?_ ?_
    · exact lookupA_insertA_self _ _ _
    · intro t ht
      have h0 : lookupA (removeA sprev.expires (bs "foo")) (bs "foo") = (none : Option Nat) :=
        lookupA_removeA_self hnd
      exact Option.noConfusion (h0.symm.trans ht)

/-- Witness for `c3_set_logged_and_replayed` with no prior traffic. -/
theorem c3_set_logged_and_replayed_witness :
    (({ Redis.empty with aof := some [] } : Redis).log [bs "P"]).aof
      = some ([] ++ (cmdFrame [bs "P"]).encode)
    ∧ (Redis.execute 2 (Redis.new 2
        (Redis.execute 1
          (([] : List (List Bytes)).foldl (fun st c => (Redis.execute 0 st c).2)
            (Redis.new 0 (some [])))
          [bs "SET", bs "foo", bs "bar"]).2.aof)
        [bs "GET", bs "foo"]).1 = .Bulk (some (bs "bar")) := by
  have h := c3_set_logged_and_replayed 0 1 2 [] (by simp)
  exact ⟨h.1 _ [bs "P"] [] rfl, h.2⟩

/-! ### Claim C5: compaction idempotence -/

/-- The argvs of the `SET` frames `Redis::compact` writes, in store
order: one per live string value. -/
def stringEntries : List (Bytes × Value) → List (List Bytes)
  | [] => []
  | (k, .str v) :: rest => [bs "SET", k, v] :: stringEntries rest
  | _ :: rest => stringEntries rest

theorem setFrames_eq (l : List (Bytes × Value)) :
    setFrames l = Resp.encodeList ((stringEntries l).map cmdFrame) := by
  induction l with
  | nil => rfl
  | cons p rest ih =>
    rcases p with ⟨k, v⟩
    cases v with
    | str sv => simp [setFrames, stringEntries, Resp.encodeList, logBytes, ih]
    | hash hh => simp [setFrames, stringEntries, ih]
    | set ss => simp [setFrames, stringEntries, ih]

theorem stringEntries_good {l : List (Bytes × Value)}
    (hwf : ∀ p ∈ l, ∀ v, p.2 = Value.str v →
      (isValidUtf8 p.1 = true ∧ p.1.length < 2 ^ 63)
      ∧ (isValidUtf8 v = true ∧ v.length < 2 ^ 63)) :
    ∀ g ∈ stringEntries l, goodArgv g := by
  induction l with
  | nil => intro g hg; cases hg
  | cons p rest ih =>
    rcases p with ⟨k, v⟩
    cases v with
    | str sv =>
      intro g hg
      simp only [stringEntries] at hg
      rcases List.mem_cons.mp hg with rfl | hg
      · have hk := hwf (k, Value.str sv) (by simp) sv rfl
        refine ⟨?_, by norm_num⟩
        intro b hb
        simp only [List.mem_cons, List.not_mem_nil, or_false] at hb
        rcases hb with rfl | rfl | rfl
        · exact ⟨by decide, by decide⟩
        · exact ⟨hk.1.1, hk.1.2⟩
        · exact ⟨hk.2.1, hk.2.2⟩
      · exact ih (fun q hq => hwf q (by simp [hq])) g hg
    | hash hh =>
      intro g hg
      simp only [stringEntries] at hg
      exact ih (fun q hq => hwf q (by simp [hq])) g hg
    | set ss =>
      intro g hg
      simp only [stringEntries] at hg
      exact ih (fun q hq => hwf q (by simp [hq])) g hg

/-- Replaying the `SET` frames of a duplicate-free store recovers
exactly its string entries on top of the base state. -/
theorem replay_sets_lookup (now : Nat) :
    ∀ (l : List (Bytes × Value)) (st : Redis), NodupKeys l →
      ∀ k, lookupA ((stringEntries l).foldl
          (fun st c => (Redis.execute_inner now st c false).2) st).store k
        = (match lookupA l k with
           | some (Value.str v) => some (Value.str v)
           | _ => lookupA st.store k) := by
  intro l
  induction l with
  | nil => intro st _ k; rfl
  | cons p rest ih =>
    intro st hnd k
    rcases p with ⟨k0, v0⟩
    rw [NodupKeys, List.map_cons, List.nodup_cons] at hnd
    have hrest0 : lookupA rest k0 = none :=
      lookupA_eq_none_of_not_mem hnd.1
    cases v0 with
    | str sv0 =>
      rw [show stringEntries ((k0, Value.str sv0) :: rest)
          = [bs "SET", k0, sv0] :: stringEntries rest from rfl, List.foldl_cons]
      rw [show (Redis.execute_inner now st [bs "SET", k0, sv0] false).2
          = { st with store := insertA st.store k0 (.str sv0),
                      expires := removeA st.expires k0 } from rfl]
      rw [ih _ hnd.2 k]
      by_cases hk : k0 = k
      · subst hk
        rw [hrest0]
        rw [show lookupA ((k0, Value.str sv0) :: rest) k0
            = some (Value.str sv0) from by rw [lookupA, if_pos rfl]]
        rw [show lookupA (insertA st.store k0 (Value.str sv0)) k0
            = some (Value.str sv0) from lookupA_insertA_self _ _ _]
      · rw [show lookupA ((k0, Value.str sv0) :: rest) k = lookupA rest k
            from by rw [lookupA, if_neg hk]]
        rw [lookupA_insertA_ne _ (fun hh => hk hh.symm)]
    | hash hh =>
      rw [show stringEntries ((k0, Value.hash hh) :: rest)
          = stringEntries rest from rfl]
      rw [ih _ hnd.2 k]
      by_cases hk : k0 = k
      · subst hk
        rw [hrest0]
        rw [show lookupA ((k0, Value.hash hh) :: rest) k0
            = some (Value.hash hh) from by rw [lookupA, if_pos rfl]]
      · rw [show lookupA ((k0, Value.hash hh) :: rest) k = lookupA rest k
            from by rw [lookupA, if_neg hk]]
    | set ss =>
      rw [show stringEntries ((k0, Value.set ss) :: rest)
          = stringEntries rest from rfl]
      rw [ih _ hnd.2 k]
      by_cases hk : k0 = k
      · subst hk
        rw [hrest0]
        rw [show lookupA ((k0, Value.set ss) :: rest) k0
            = some (Value.set ss) from by rw [lookupA, if_pos rfl]]
      · rw [show lookupA ((k0, Value.set ss) :: rest) k = lookupA rest k
            from by rw [lookupA, if_neg hk]]

/-- C5 counterexample: a hash field set before `COMPACT` is absent after
replaying the twice-compacted log, so the replayed dataset differs from
the pre-compaction dataset. -/
theorem c5_counterexample :
    lookupA ((Redis.execute 0 (Redis.new 0 (some []))
        [bs "HSET", bs "h", bs "f", bs "v"]).2).store (bs "h")
      = some (.hash [(bs "f", bs "v")])
    ∧ lookupA (Redis.new 1 (((Redis.execute 0 (Redis.new 0 (some []))
        [bs "HSET", bs "h", bs "f", bs "v"]).2).compact.compact).aof).store (bs "h")
      = none :=
  ⟨rfl, rfl⟩

/-- C5 (amended): on a store with an open log, no vector indexes and a
duplicate-free key space of well-formed entries, the second `COMPACT`
writes the same log as the first, and replaying the twice-compacted log
yields exactly the string entries of the pre-compaction dataset (hash
and set values are dropped, per the spec's stated limitation). -/
theorem c5_compact_twice_replay (now : Nat) (s : Redis) (c0 : Bytes)
    (haof : s.aof = some c0) (hvec : s.vectors = [])
    (hnd : NodupKeys s.store)
    (hwf : ∀ p ∈ s.store, ∀ v, p.2 = Value.str v →
      (isValidUtf8 p.1 = true ∧ p.1.length < 2 ^ 63)
      ∧ (isValidUtf8 v = true ∧ v.length < 2 ^ 63)) :
    s.compact.compact.aof = s.compact.aof
    ∧ ∀ k, lookupA (Redis.new now s.compact.compact.aof).store k
        = (match lookupA s.store k with
           | some (Value.str v) => some (Value.str v)
           | _ => none) := by
  have hcb : ∀ X : Option Bytes, compactBytes { s with aof := X } = setFrames s.store := by
    intro X
    simp [compactBytes, hvec, vecFramesGo]
  have hcb0 : compactBytes s = setFrames s.store := by
    simp [compactBytes, hvec, vecFramesGo]
  have hc1 : s.compact = { s with aof := some (compactBytes s) } := by
    simp [Redis.compact, haof]
  have hc1aof : s.compact.aof = some (setFrames s.store) := by
    rw [hc1]
    simp [hcb0]
  have hc2aof : s.compact.compact.aof = some (setFrames s.store) := by
    rw [hc1]
    simp [Redis.compact, hcb]
  refine ⟨hc2aof.trans hc1aof.symm, ?_⟩
  intro k
  rw [hc2aof, setFrames_eq]
  have hgood := stringEntries_good hwf
  have hwfl := wfList_map_cmdFrame hgood
  have hparse := parseStream_encodeList hwfl
  have hfm := filterMap_cmdFrames (fun g hg b hb => ((hgood g hg).1 b hb).1)
  have hnew : Redis.new now (some (Resp.encodeList ((stringEntries s.store).map cmdFrame)))
      = { ((stringEntries s.store).foldl (fun st c => (Redis.execute_inner now st c false).2) Redis.empty) with aof := some (Resp.encodeList ((stringEntries s.store).map cmdFrame)) } := by
    simp only [Redis.new, hparse, hfm]
  rw [hnew]
  exact replay_sets_lookup now s.store Redis.empty hnd k

/-- Witness for `c5_compact_twice_replay` on a one-string store. -/
theorem c5_compact_twice_replay_witness :
    ((Redis.execute 0 (Redis.new 0 (some []))
        [bs "SET", bs "a", bs "b"]).2).compact.compact.aof
      = ((Redis.execute 0 (Redis.new 0 (some [])) [bs "SET", bs "a", bs "b"]).2).compact.aof
    ∧ lookupA (Redis.new 1 ((Redis.execute 0 (Redis.new 0 (some []))
        [bs "SET", bs "a", bs "b"]).2).compact.compact.aof).store (bs "a")
      = some (.str (bs "b")) := by
  have h := c5_compact_twice_replay 1
    (Redis.execute 0 (Redis.new 0 (some [])) [bs "SET", bs "a", bs "b"]).2
    (logBytes [bs "SET", bs "a", bs "b"]) rfl rfl (List.nodup_singleton _)
    (by
      intro p hp v hv
      have hst : (Redis.execute 0 (Redis.new 0 (some [])) [bs "SET", bs "a", bs "b"]).2.store
          = [(bs "a", Value.str (bs "b"))] := rfl
      rw [hst] at hp
      simp only [List.mem_singleton] at hp
      subst hp
      injection hv with hv2
      subst hv2
      exact ⟨⟨by decide, by decide⟩, ⟨by decide, by decide⟩⟩)
  refine ⟨h.1, ?_⟩
  rw [h.2 (bs "a")]
  rfl

end CodexRedis
